import Mathlib

/-!
Shallow embedding of the synthetic-data generator in
`scripts/hotel_oltp_data_gen_pg_meaningful_unique_v7.py`, together with
theorems settling the frozen claims about it.

Modelling conventions (applied uniformly):
* Python `random.*` and Faker calls are modelled by an oracle `g : Nat → Nat`
  consumed at an explicit position `k` (one position per call); `uuid.uuid4().hex`
  tokens by a second oracle `tok : Nat → String` at position `j`.
* `random.shuffle` is modelled by a `shuffle : List Value → List Value` parameter;
  theorems that depend on it assume it permutes its input.
* SQL values are the inductive `Value`; Python `None` is `Value.vnull`.
  Dates and timestamps are modelled on an abstract integer time axis.
* Python dicts keyed by strings are association lists updated in place
  (replace-or-append), so key membership and iteration order are preserved.
* Paths on which the Python program raises are `Except.error`; a loop that can
  run forever is given fuel and yields `none` exactly when the fuel runs out.
* The text branch of `generate_value` (location pools, Faker sentences, etc.)
  always produces a string in the source; it is modelled as a string drawn from
  the oracle, since no claim inspects the content of those strings.
-/

namespace HotelGen

/-- ASCII lowering of one character, modelling Python `str.lower()` for the
ASCII identifiers this schema uses. -/
def lowerChar (c : Char) : Char :=
  if 65 ≤ c.toNat && c.toNat ≤ 90 then Char.ofNat (c.toNat + 32) else c

/-- ASCII `str.lower()`. -/
def lowerStr (s : String) : String := String.mk (s.data.map lowerChar)

/-- ASCII raising of one character, modelling Python `str.upper()`. -/
def upperChar (c : Char) : Char :=
  if 97 ≤ c.toNat && c.toNat ≤ 122 then Char.ofNat (c.toNat - 32) else c

/-- ASCII `str.upper()`. -/
def upperStr (s : String) : String := String.mk (s.data.map upperChar)

/-- Contiguous-sublist test on character lists. -/
def subChars (p : List Char) : List Char → Bool
  | [] => p.isEmpty
  | c :: rest => p.isPrefixOf (c :: rest) || subChars p rest

/-- Python's `sub in s` membership test on strings. -/
def strContains (s pat : String) : Bool :=
  subChars pat.data s.data

/-- Python's `s.endswith(pat)`. -/
def strEndsWith (s pat : String) : Bool :=
  pat.data.isSuffixOf s.data

/-- Lexicographic comparison of character lists by code point. -/
def charsLe : List Char → List Char → Bool
  | [], _ => true
  | _ :: _, [] => false
  | x :: xs, y :: ys =>
    if x.toNat < y.toNat then true
    else if y.toNat < x.toNat then false
    else charsLe xs ys

/-- Lexicographic string comparison (Python string ordering on code points). -/
def strLe (a b : String) : Bool := charsLe a.data b.data

/-- Ordered insertion for `sortStr`. -/
def insertSorted (a : String) : List String → List String
  | [] => [a]
  | b :: l => if strLe a b then a :: b :: l else b :: insertSorted a l

/-- Python's `sorted` / `list.sort()` on strings (ascending, stable). -/
def sortStr : List String → List String
  | [] => []
  | b :: l => insertSorted b (sortStr l)

/-- SQL cell values as produced by the generator; `vnull` is Python `None`. -/
inductive Value where
  | vnull : Value
  | vint (n : Int) : Value
  | vstr (s : String) : Value
  | vbool (b : Bool) : Value
  | vdate (d : Int) : Value
  deriving DecidableEq

/-- Rendering used by the Python f-string fallback `f"{v}_{...}"`. -/
def valueText : Value → String
  | .vnull => "None"
  | .vint n => toString n
  | .vstr s => s
  | .vbool b => toString b
  | .vdate d => toString d

/-- Column metadata exactly as introspected (dataclass `ColumnInfo`). -/
structure ColumnInfo where
  table : String
  column : String
  data_type : String
  udt_name : String
  is_nullable : Bool
  char_max_len : Option Nat
  numeric_precision : Option Nat
  numeric_scale : Option Nat
  deriving DecidableEq

/-- Foreign-key edge (dataclass `ForeignKey`). -/
structure ForeignKey where
  table : String
  column : String
  ref_table : String
  ref_column : String
  deriving DecidableEq

/-- Primary key (dataclass `PrimaryKey`). -/
structure PrimaryKey where
  table : String
  columns : List String
  deriving DecidableEq

/-- Association-list lookup for string-keyed dicts. -/
def alookup {α : Type} : List (String × α) → String → Option α
  | [], _ => none
  | p :: rest, key => if p.1 = key then some p.2 else alookup rest key

/-- Python dict assignment `m[key] = v`: replace the entry in place when the
key is present (dicts keep insertion order), else append. -/
def aset {α : Type} : List (String × α) → String → α → List (String × α)
  | [], key, v => [(key, v)]
  | p :: rest, key, v => if p.1 = key then (key, v) :: rest else p :: aset rest key v

/-- Lookup in pair-keyed dicts such as `_UNIQUE_SEEN[(table, column)]`. -/
def plookup {α : Type} : List ((String × String) × α) → String × String → Option α
  | [], _ => none
  | p :: rest, key => if p.1 = key then some p.2 else plookup rest key

/-- Assignment in pair-keyed dicts. -/
def pset {α : Type} : List ((String × String) × α) → String × String → α →
    List ((String × String) × α)
  | [], key, v => [(key, v)]
  | p :: rest, key, v => if p.1 = key then (key, v) :: rest else p :: pset rest key v

/-- `{c.column.lower(): c.column for c in cols}` followed by `.get(name)`. -/
def col_lc_get (cols : List ColumnInfo) (name : String) : Option String :=
  (cols.find? (fun c => lowerStr c.column = name)).map (fun c => c.column)

/-- `build_fk_map`: `{(fk.table.lower(), fk.column): (fk.ref_table.lower(), fk.ref_column)}`. -/
def build_fk_map (fks : List ForeignKey) : List ((String × String) × (String × String)) :=
  fks.foldl (fun m fk => pset m (lowerStr fk.table, fk.column) (lowerStr fk.ref_table, fk.ref_column)) []

/-- `enums.get(udt)` over the enum catalog `{enum_name_lc: [labels]}`. -/
def lookupEnums (enums : List (String × List String)) (udt : String) : Option (List String) :=
  alookup enums udt

/-- `generate_value(fake, col, row_idx, enums)` (source lines 428-539).
Returns the value and the next oracle position.  Faithful in its dispatch
structure and in the deterministic `_id -> row_idx` case; every random draw
consumes one oracle position.  The text cascade is abstracted to an
oracle-supplied string (see the header comment). -/
def generate_value (col : ColumnInfo) (row_idx : Nat)
    (enums : List (String × List String)) (g : Nat → Nat) (k : Nat) : Value × Nat :=
  let name := lowerStr col.column
  let dt := lowerStr col.data_type
  let udt := lowerStr col.udt_name
  match lookupEnums enums udt with
  | some labels =>
      -- ENUM: optional null for nullable columns, else a sampled label
      if col.is_nullable && g k % 100 < 3 then (.vnull, k + 1)
      else if labels.isEmpty then (.vnull, k + 2)
      else (.vstr (labels.getD (g (k + 1) % labels.length) ""), k + 2)
  | none =>
    if name = "created_at" || name = "updated_at" || name = "loaded_at" || name = "ingested_at" then
      (.vdate (Int.ofNat (g k)), k + 1)
    else if dt = "date" then
      (.vdate (Int.ofNat (g k)), k + 1)
    else if dt = "timestamp without time zone" || dt = "timestamp with time zone"
        || udt = "timestamp" || udt = "timestamptz" then
      (.vdate (Int.ofNat (g k)), k + 1)
    else if dt = "integer" || dt = "bigint" || dt = "smallint"
        || udt = "int2" || udt = "int4" || udt = "int8" then
      if strEndsWith name "_id" then (.vint (Int.ofNat row_idx), k)
      else if name = "score" || strContains name "rating" || strContains name "stars"
          || strContains name "score" then
        (.vint (Int.ofNat (1 + g k % 5)), k + 1)
      else if strContains name "count" || strContains name "qty" || strContains name "quantity"
          || strContains name "nights" || strContains name "floor" || strContains name "occupancy" then
        (.vint (Int.ofNat (1 + g k % 10)), k + 1)
      else
        (.vint (Int.ofNat (1 + g k % 100000)), k + 1)
    else if dt = "uuid" || udt = "uuid" then
      (.vstr ("u_" ++ toString (g k)), k + 1)
    else if dt = "boolean" then
      (.vbool (g k % 2 = 1), k + 1)
    else if dt = "numeric" || dt = "decimal" || udt = "numeric" then
      (.vint (Int.ofNat (g k)), k + 1)
    else if dt = "character varying" || dt = "character" || dt = "text" then
      (.vstr ("t_" ++ toString (g k)), k + 1)
    else
      (.vnull, k)

/-- The retry phase of `unique_text` (source lines 391-397): up to `budget`
tries, each drawing candidate `mk j` (modelling `str(make_value()).strip()`),
accepting the first non-empty candidate not in `seen`.  Returns the accepted
string and the next candidate position, or `none` when the budget is spent —
the Python function then falls off its end and returns `None`. -/
def unique_text_loop (seen : List String) (mk : Nat → String) :
    Nat → Nat → Option (String × Nat)
  | _, 0 => none
  | j, t + 1 =>
    let v := mk j
    if v ≠ "" && v ∉ seen then some (v, j + 1) else unique_text_loop seen mk (j + 1) t

/-- `unique_text(key, make_value, max_tries)` with the per-key registry entry
`seen` passed explicitly (the caller owns `_UNIQUE_SEEN`). -/
def unique_text (seen : List String) (mk : Nat → String) (max_tries : Nat) (j : Nat) :
    Option (String × Nat) :=
  unique_text_loop seen mk j max_tries

/-- The retry phase of the repeated uniqueness-enforcement block:
`while v in seen and tries < 50: tries += 1; v = generate_value(fake, c, i + tries, enums)`.
Returns the final value, the final value of `tries`, and the oracle position. -/
def uniqueRetry (c : ColumnInfo) (i : Nat) (enums : List (String × List String))
    (g : Nat → Nat) (seen : List Value) :
    Nat → Nat → Value → Nat → Value × Nat × Nat
  | 0, tries, v, k => (v, tries, k)
  | b + 1, tries, v, k =>
    if v ∈ seen then
      let r := generate_value c (i + (tries + 1)) enums g k
      uniqueRetry c i enums g seen b (tries + 1) r.1 r.2
    else (v, tries, k)

/-- The full uniqueness-enforcement block (retry then forced fallback), as it
appears verbatim at source lines 816-836, 857-877, 1415-1435 and 1459-1479.
The forced string branch reads `c.character_maximum_length`, an attribute that
does not exist on the `ColumnInfo` dataclass (its field is `char_max_len`), so
Python raises `AttributeError` there; that is the `.error` case.  The forced
integer branch computes `int(v) + (i * 1000) + tries` and the remaining branch
the f-string `f"{v}_{uuid.uuid4().hex[:6]}"`.  None of the forced values is
re-checked against `seen`. -/
def enforce_unique (c : ColumnInfo) (i : Nat) (enums : List (String × List String))
    (g : Nat → Nat) (tok : Nat → String) (seen : List Value) (v : Value) (k j : Nat) :
    Except String (Value × Nat × Nat) :=
  let r := uniqueRetry c i enums g seen 50 0 v k
  let v1 := r.1
  let tries := r.2.1
  let k1 := r.2.2
  if v1 ∈ seen then
    match v1 with
    | .vstr _ => .error "AttributeError: ColumnInfo has no attribute character_maximum_length"
    | .vint n => .ok (.vint (n + Int.ofNat (i * 1000 + tries)), k1, j)
    | w => .ok (.vstr (valueText w ++ "_" ++ tok j), k1, j + 1)
  else
    .ok (v1, k1, j)

/-- The null-sentinel substitution for non-nullable columns (source lines
837-847 and 1480-1490): text columns get a `unique_text` token `VAL_<hex>`,
integers `1`, booleans `False`, dates today (time origin `0`), anything else
the literal string `"VAL"`.  When `unique_text` exhausts its budget it returns
`None` and `v` stays null. -/
def null_fallback (c : ColumnInfo) (tok : Nat → String) (v : Value)
    (reg : List ((String × String) × List String)) (j : Nat) :
    Value × List ((String × String) × List String) × Nat :=
  if v == Value.vnull && !c.is_nullable then
    let dt := lowerStr c.data_type
    if dt = "character varying" || dt = "character" || dt = "text" then
      let key := (c.table, c.column)
      let seen := (plookup reg key).getD []
      match unique_text seen (fun m => "VAL_" ++ tok m) 200000 j with
      | some (s, j2) => (.vstr s, pset reg key (seen ++ [s]), j2)
      | none => (.vnull, reg, j + 200000)
    else if dt = "integer" || dt = "bigint" || dt = "smallint" then
      (.vint 1, reg, j)
    else if dt = "boolean" then
      (.vbool false, reg, j)
    else if dt = "date" then
      (.vdate 0, reg, j)
    else
      (.vstr "VAL", reg, j)
  else
    (v, reg, j)

/-- The mutable locals of `generate_table_csv` that survive across columns and
rows: the Python variable `v` itself (it leaks from one column into the next),
the two oracle positions, `seen_uniques`, the `_UNIQUE_SEEN` registry and
`pk_vals`. -/
structure GenState where
  v : Value
  k : Nat
  j : Nat
  seenU : List (String × List Value)
  reg : List ((String × String) × List String)
  pk_vals : List Value

/-- FK resolution from the current reference pool (source lines 1453-1454):
`random.choice(candidates) if candidates else (None if c.is_nullable else 1)`. -/
def fkFromCandidates (g : Nat → Nat) (ref_ids : List (String × List Value)) (parent : String)
    (c : ColumnInfo) (row : List (String × Value)) (st : GenState) (v0 : Value) (k0 : Nat) :
    Except String (List (String × Value) × GenState) :=
  let candidates := (alookup ref_ids parent).getD []
  if !candidates.isEmpty then
    .ok (aset row c.column (candidates.getD (g k0 % candidates.length) Value.vnull),
         { st with v := v0, k := k0 + 1 })
  else
    .ok (aset row c.column (if c.is_nullable then Value.vnull else Value.vint 1),
         { st with v := v0, k := k0 })

/-- The tail of the generic per-column logic (source lines 1440-1491): the FK
branch (with the UNIQUE(FK) positional pool), then fresh synthesis, the second
uniqueness-enforcement block, the null sentinel, and the row assignment. -/
def genColRest (g : Nat → Nat) (tok : Nat → String) (table_lc : String)
    (enums : List (String × List String))
    (fk_map : List ((String × String) × (String × String)))
    (ref_ids : List (String × List Value))
    (unique_fk_pools : List (String × List Value))
    (i : Nat) (c : ColumnInfo)
    (row : List (String × Value)) (st : GenState) (v0 : Value) (k0 : Nat) :
    Except String (List (String × Value) × GenState) :=
  match plookup fk_map (table_lc, c.column) with
  | some pr =>
    match alookup unique_fk_pools c.column with
    | some pool =>
      if !pool.isEmpty then
        let idx := i - 1
        let w :=
          if idx < pool.length then pool.getD idx Value.vnull
          else if c.is_nullable then Value.vnull else pool.getLastD Value.vnull
        .ok (aset row c.column w, { st with v := v0, k := k0 })
      else
        fkFromCandidates g ref_ids pr.1 c row st v0 k0
    | none => fkFromCandidates g ref_ids pr.1 c row st v0 k0
  | none =>
    let r1 := generate_value c i enums g k0
    let v1 := r1.1
    let k1 := r1.2
    let step2 : Except String (Value × Nat × Nat × List (String × List Value)) :=
      match alookup st.seenU c.column with
      | some s =>
        if !(v1 == Value.vnull) then
          match enforce_unique c i enums g tok s v1 k1 st.j with
          | .error e => .error e
          | .ok (v2, k2, j2) => .ok (v2, k2, j2, aset st.seenU c.column (s ++ [v2]))
        else .ok (v1, k1, st.j, st.seenU)
      | none => .ok (v1, k1, st.j, st.seenU)
    match step2 with
    | .error e => .error e
    | .ok (v2, k2, j2, seenU2) =>
      let fb := null_fallback c tok v2 st.reg j2
      .ok (aset row c.column fb.1,
           { st with v := fb.1, k := k2, j := fb.2.2, seenU := seenU2, reg := fb.2.1 })

/-- One column of the generic assembler (source lines 1407-1491).  Note the
faithful quirk: the first uniqueness-enforcement block runs on whatever the
Python variable `v` currently holds — the previous column's value when this
column is not the primary key — and on that path the row value is assigned and
the loop continues without ever consulting the FK branch or synthesizing a
fresh value.  (When the very first generated column is under a uniqueness
constraint Python would raise `UnboundLocalError`; the uninitialized `v` is
modelled as null, which merely skips that block.) -/
def processColGeneric (g : Nat → Nat) (tok : Nat → String) (table_lc : String)
    (enums : List (String × List String))
    (fk_map : List ((String × String) × (String × String)))
    (ref_ids : List (String × List Value))
    (unique_fk_pools : List (String × List Value))
    (pk_col : Option String) (i : Nat) (c : ColumnInfo)
    (row : List (String × Value)) (st : GenState) :
    Except String (List (String × Value) × GenState) :=
  if (alookup row c.column).isSome then .ok (row, st)
  else
    let p0 := if pk_col = some c.column then generate_value c i enums g st.k else (st.v, st.k)
    let v0 := p0.1
    let k0 := p0.2
    match alookup st.seenU c.column with
    | some s =>
      if !(v0 == Value.vnull) then
        match enforce_unique c i enums g tok s v0 k0 st.j with
        | .error e => .error e
        | .ok (v1, k1, j1) =>
          .ok (aset row c.column v1,
               { st with
                   v := v1, k := k1, j := j1,
                   seenU := aset st.seenU c.column (s ++ [v1]),
                   pk_vals := st.pk_vals ++ [v1] })
      else genColRest g tok table_lc enums fk_map ref_ids unique_fk_pools i c row st v0 k0
    | none => genColRest g tok table_lc enums fk_map ref_ids unique_fk_pools i c row st v0 k0

/-- Left-to-right fold of `processColGeneric` over the column list. -/
def processColsGeneric (g : Nat → Nat) (tok : Nat → String) (table_lc : String)
    (enums : List (String × List String))
    (fk_map : List ((String × String) × (String × String)))
    (ref_ids : List (String × List Value))
    (unique_fk_pools : List (String × List Value))
    (pk_col : Option String) (i : Nat) (cols : List ColumnInfo)
    (row : List (String × Value)) (st : GenState) :
    Except String (List (String × Value) × GenState) :=
  match cols with
  | [] => .ok (row, st)
  | c :: rest =>
    match processColGeneric g tok table_lc enums fk_map ref_ids unique_fk_pools pk_col i c row st with
    | .error e => .error e
    | .ok (row2, st2) =>
      processColsGeneric g tok table_lc enums fk_map ref_ids unique_fk_pools pk_col i rest row2 st2

/-- `next((col_lc[k] for k in keys if k in col_lc), None)`. -/
def findColByKeys (cols : List ColumnInfo) (keys : List String) : Option String :=
  (keys.find? (fun key => (col_lc_get cols key).isSome)).bind (fun key => col_lc_get cols key)

/-- The start/end-date coherence pre-pass opening each generic row (source
lines 1398-1405). -/
def genPre (g : Nat → Nat) (startEnd : Option (String × String)) (st : GenState) :
    List (String × Value) × GenState :=
  match startEnd with
  | some sc =>
    let d := Int.ofNat (g st.k)
    (aset (aset [] sc.1 (.vdate d)) sc.2 (.vdate (d + 1 + Int.ofNat (g (st.k + 1) % 60))),
     { st with k := st.k + 2 })
  | none => ([], st)

/-- The row loop of the generic assembler (source lines 1398-1493), including
the start/end-date coherence pre-pass. -/
def genRowsLoop (g : Nat → Nat) (tok : Nat → String) (table_lc : String)
    (enums : List (String × List String))
    (fk_map : List ((String × String) × (String × String)))
    (ref_ids : List (String × List Value))
    (unique_fk_pools : List (String × List Value))
    (pk_col : Option String) (startEnd : Option (String × String))
    (cols : List ColumnInfo) :
    Nat → Nat → GenState → List (List (String × Value)) →
    Except String (List (List (String × Value)) × GenState)
  | 0, _, st, acc => .ok (acc, st)
  | m + 1, i, st, acc =>
    let pre := genPre g startEnd st
    match processColsGeneric g tok table_lc enums fk_map ref_ids unique_fk_pools pk_col i cols
        pre.1 pre.2 with
    | .error e => .error e
    | .ok (row1, st1) =>
      genRowsLoop g tok table_lc enums fk_map ref_ids unique_fk_pools pk_col startEnd cols
        m (i + 1) st1 (acc ++ [row1])

/-- `generate_table_csv` for a table without bespoke handling (source lines
1363-1499), producing the row dictionaries instead of a CSV file and returning
the updated `ref_ids` (line 1496-1497 stores `pk_vals` under the table key). -/
def generate_table_rows (g : Nat → Nat) (tok : Nat → String)
    (shuffle : List Value → List Value)
    (table : String) (cols : List ColumnInfo) (pk : Option PrimaryKey)
    (fk_map : List ((String × String) × (String × String)))
    (ref_ids : List (String × List Value))
    (n_rows : Nat) (enums : List (String × List String))
    (unique_cols : List (String × List String))
    (reg0 : List ((String × String) × List String)) (j0 : Nat) :
    Except String (List (List (String × Value)) × List (String × List Value)) :=
  let table_lc := lowerStr table
  let pk_col : Option String :=
    match pk with
    | some p => if p.columns.length = 1 then p.columns.head? else none
    | none => none
  let uniq : List String := (alookup unique_cols table_lc).getD []
  let unique_fk_pools : List (String × List Value) :=
    (cols.filter (fun c =>
        (plookup fk_map (table_lc, c.column)).isSome && uniq.contains c.column)).map
      (fun c =>
        let parent := ((plookup fk_map (table_lc, c.column)).getD ("", "")).1
        (c.column, (shuffle ((alookup ref_ids parent).getD [])).take n_rows))
  let seenU0 : List (String × List Value) := uniq.map (fun cname => (cname, []))
  let start_col := findColByKeys cols
    ["start_date", "from_date", "valid_from", "effective_start_date", "block_start_date"]
  let end_col := findColByKeys cols
    ["end_date", "to_date", "valid_to", "effective_end_date", "block_end_date", "expires_on"]
  let startEnd : Option (String × String) :=
    match start_col, end_col with
    | some sc, some ec => some (sc, ec)
    | _, _ => none
  let st0 : GenState := ⟨Value.vnull, 0, j0, seenU0, reg0, []⟩
  match genRowsLoop g tok table_lc enums fk_map ref_ids unique_fk_pools pk_col startEnd cols
      n_rows 1 st0 [] with
  | .error e => .error e
  | .ok (rows, stF) =>
    .ok (rows, if pk_col.isSome then aset ref_ids table_lc stF.pk_vals else ref_ids)

/-- The `for _ in range(50)` loop around `_register_unique` in
`generate_stay_csv` (source lines 746-755 and 849-855): check the value
against the per-column seen set; on success register it and stop, on a
duplicate regenerate and try again; after 50 failed checks the final
regenerated value stays unregistered. -/
def registerLoop (c : ColumnInfo) (i : Nat) (enums : List (String × List String))
    (g : Nat → Nat) :
    Nat → Value → Nat → List (String × List Value) → Value × Nat × List (String × List Value)
  | 0, v, k, seenU => (v, k, seenU)
  | b + 1, v, k, seenU =>
    match alookup seenU c.column with
    | none => (v, k, seenU)
    | some s =>
      if v == Value.vnull then (v, k, seenU)
      else if v ∈ s then
        let r := generate_value c i enums g k
        registerLoop c i enums g b r.1 r.2 seenU
      else (v, k, aset seenU c.column (s ++ [v]))

/-- One column of the stay assembler (source lines 805-879).  Faithful to a
consequential quirk of the source: the FK branch assigns `row[c.column]` from
the parent pool but never assigns the Python variable `v`, and after the
uniqueness and null-sentinel blocks line 879 unconditionally runs
`row[c.column] = v`, overwriting the FK value with the stale value left over
from the previous column. -/
def processColStay (g : Nat → Nat) (tok : Nat → String) (table_lc : String)
    (enums : List (String × List String))
    (fk_map : List ((String × String) × (String × String)))
    (ref_ids : List (String × List Value))
    (i : Nat) (c : ColumnInfo)
    (row : List (String × Value)) (st : GenState) :
    Except String (List (String × Value) × GenState) :=
  if (alookup row c.column).isSome then .ok (row, st)
  else
    let fkRes : List (String × Value) × Value × Nat :=
      match plookup fk_map (table_lc, c.column) with
      | some pr =>
        let candidates := (alookup ref_ids pr.1).getD []
        if !candidates.isEmpty then
          (aset row c.column (candidates.getD (g st.k % candidates.length) Value.vnull),
           st.v, st.k + 1)
        else
          (aset row c.column (if c.is_nullable then Value.vnull else Value.vint 1), st.v, st.k)
      | none =>
        let r := generate_value c i enums g st.k
        (row, r.1, r.2)
    let row1 := fkRes.1
    let v0 := fkRes.2.1
    let k0 := fkRes.2.2
    -- first uniqueness-enforcement block (816-836); no continue in the stay variant
    let step1 : Except String (Value × Nat × Nat × List (String × List Value)) :=
      match alookup st.seenU c.column with
      | some s =>
        if !(v0 == Value.vnull) then
          match enforce_unique c i enums g tok s v0 k0 st.j with
          | .error e => .error e
          | .ok (v1, k1, j1) => .ok (v1, k1, j1, aset st.seenU c.column (s ++ [v1]))
        else .ok (v0, k0, st.j, st.seenU)
      | none => .ok (v0, k0, st.j, st.seenU)
    match step1 with
    | .error e => .error e
    | .ok (v1, k1, j1, seenU1) =>
      -- null sentinel (837-847)
      let fb := null_fallback c tok v1 st.reg j1
      let v2 := fb.1
      -- `_register_unique` retry loop (849-855)
      let rg := registerLoop c i enums g 50 v2 k1 seenU1
      let v3 := rg.1
      let k3 := rg.2.1
      let seenU3 := rg.2.2
      -- second uniqueness-enforcement block (857-877)
      let step2 : Except String (Value × Nat × Nat × List (String × List Value)) :=
        match alookup seenU3 c.column with
        | some s =>
          if !(v3 == Value.vnull) then
            match enforce_unique c i enums g tok s v3 k3 fb.2.2 with
            | .error e => .error e
            | .ok (v4, k4, j4) => .ok (v4, k4, j4, aset seenU3 c.column (s ++ [v4]))
          else .ok (v3, k3, fb.2.2, seenU3)
        | none => .ok (v3, k3, fb.2.2, seenU3)
      match step2 with
      | .error e => .error e
      | .ok (v4, k4, j4, seenU4) =>
        -- line 879: row[c.column] = v, unconditionally
        .ok (aset row1 c.column v4,
             { st with v := v4, k := k4, j := j4, seenU := seenU4, reg := fb.2.1 })

/-- Fold of `processColStay` over the column list. -/
def processColsStay (g : Nat → Nat) (tok : Nat → String) (table_lc : String)
    (enums : List (String × List String))
    (fk_map : List ((String × String) × (String × String)))
    (ref_ids : List (String × List Value))
    (i : Nat) (cols : List ColumnInfo)
    (row : List (String × Value)) (st : GenState) :
    Except String (List (String × Value) × GenState) :=
  match cols with
  | [] => .ok (row, st)
  | c :: rest =>
    match processColStay g tok table_lc enums fk_map ref_ids i c row st with
    | .error e => .error e
    | .ok (row2, st2) => processColsStay g tok table_lc enums fk_map ref_ids i rest row2 st2

/-- `status_col = col_lc.get("stay_status") or col_lc.get("status")`
(source line 725). -/
def stay_status_col (cols : List ColumnInfo) : Option String :=
  match col_lc_get cols "stay_status" with
  | some sc => some sc
  | none => col_lc_get cols "status"

/-- Static configuration of `generate_stay_csv` derived from its arguments. -/
structure StayCfg where
  table_lc : String
  booking_id_col : Option String
  status_col : Option String
  aci_col : Option String
  aco_col : Option String
  bookings : List Value
  is_booking_unique : Bool
  stay_status_choices : List String
  deriving DecidableEq

/-- `if aci_col: row[aci_col] = w` — assignment guarded on column presence. -/
def staySetA (cfg : StayCfg) (r : List (String × Value)) (w : Value) : List (String × Value) :=
  match cfg.aci_col with
  | some a => aset r a w
  | none => r

/-- `if aco_col: row[aco_col] = w`. -/
def staySetO (cfg : StayCfg) (r : List (String × Value)) (w : Value) : List (String × Value) :=
  match cfg.aco_col with
  | some o => aset r o w
  | none => r

/-- The status-derived scenario branch of `generate_stay_csv` (source lines
776-803): cancelled stays get null timestamps, checked-out stays an ordered
pair, in-progress stays a check-in only, anything else null timestamps. -/
def stayBranch (cfg : StayCfg) (g : Nat → Nat) (row1 : List (String × Value)) (s : String)
    (k1 : Nat) : List (String × Value) × Nat :=
  if strContains s "CANCEL" then (staySetO cfg (staySetA cfg row1 Value.vnull) Value.vnull, k1)
  else if strContains s "OUT" then
    let ci := Int.ofNat (g k1)
    let co := ci + 1 + Int.ofNat (g (k1 + 1) % 10)
    (staySetO cfg (staySetA cfg row1 (.vdate ci)) (.vdate co), k1 + 2)
  else if strContains s "IN" && !strContains s "OUT" then
    (staySetO cfg (staySetA cfg row1 (.vdate (Int.ofNat (g k1)))) Value.vnull, k1 + 1)
  else (staySetO cfg (staySetA cfg row1 Value.vnull) Value.vnull, k1)

/-- The post-assembly repair (source lines 881-885): if both actual timestamps
are present and checkout < checkin, force checkout = checkin + 1 day. -/
def stayRepair (cfg : StayCfg) (row2 : List (String × Value)) : List (String × Value) :=
  match cfg.aci_col, cfg.aco_col with
  | some a, some o =>
    match alookup row2 a, alookup row2 o with
    | some (.vdate ci), some (.vdate co) =>
      if co < ci then aset row2 o (.vdate (ci + 1)) else row2
    | _, _ => row2
  | _, _ => row2

/-- The booking-id assignment opening each stay row (source lines 762-774). -/
def stayWithBooking (cfg : StayCfg) (g : Nat → Nat) (i : Nat) (st : GenState) :
    List (String × Value) × Nat :=
  match cfg.booking_id_col with
  | some bc =>
    if cfg.is_booking_unique then
      (aset [] bc (cfg.bookings.getD (i - 1) Value.vnull), st.k)
    else if !cfg.bookings.isEmpty then
      (aset [] bc (cfg.bookings.getD (g st.k % cfg.bookings.length) Value.vnull), st.k + 1)
    else
      (aset [] bc (Value.vint 1), st.k)
  | none => ([], st.k)

/-- Status sampling for one stay row (source line 776): when a status column
and enum labels exist, a label is drawn and stored, otherwise no scenario is
derived. -/
def stayWithStatus (cfg : StayCfg) (g : Nat → Nat) (row0 : List (String × Value)) (k0 : Nat) :
    List (String × Value) × Option String × Nat :=
  match cfg.status_col with
  | some sc =>
    if !cfg.stay_status_choices.isEmpty then
      let lbl := cfg.stay_status_choices.getD (g k0 % cfg.stay_status_choices.length) ""
      (aset row0 sc (.vstr lbl), some lbl, k0 + 1)
    else (row0, none, k0)
  | none => (row0, none, k0)

/-- The tail of one stay row after booking/status assignment: scenario branch,
column loop, and the final checkout-before-checkin repair. -/
def stayRowCore (g : Nat → Nat) (tok : Nat → String) (cfg : StayCfg)
    (enums : List (String × List String))
    (fk_map : List ((String × String) × (String × String)))
    (ref_ids : List (String × List Value))
    (cols : List ColumnInfo) (i : Nat) (st : GenState)
    (row1 : List (String × Value)) (scenario : Option String) (k1 : Nat) :
    Except String (List (String × Value) × GenState) :=
  let branch := stayBranch cfg g row1 (upperStr (scenario.getD "")) k1
  match processColsStay g tok cfg.table_lc enums fk_map ref_ids i cols branch.1
      { st with k := branch.2 } with
  | .error e => .error e
  | .ok (row2, st2) => .ok (stayRepair cfg row2, st2)

/-- One row of `generate_stay_csv` (source lines 762-887): booking id, status
sampling, the status-derived scenario branch for the two actual timestamps,
the column loop, and the final checkout-before-checkin repair. -/
def stayRow (g : Nat → Nat) (tok : Nat → String) (cfg : StayCfg)
    (enums : List (String × List String))
    (fk_map : List ((String × String) × (String × String)))
    (ref_ids : List (String × List Value))
    (cols : List ColumnInfo) (i : Nat) (st : GenState) :
    Except String (List (String × Value) × GenState) :=
  let wb := stayWithBooking cfg g i st
  let ws := stayWithStatus cfg g wb.1 wb.2
  stayRowCore g tok cfg enums fk_map ref_ids cols i st ws.1 ws.2.1 ws.2.2

/-- The row loop of `generate_stay_csv`. -/
def stayRowsLoop (g : Nat → Nat) (tok : Nat → String) (cfg : StayCfg)
    (enums : List (String × List String))
    (fk_map : List ((String × String) × (String × String)))
    (ref_ids : List (String × List Value))
    (cols : List ColumnInfo) :
    Nat → Nat → GenState → List (List (String × Value)) →
    Except String (List (List (String × Value)))
  | 0, _, _, acc => .ok acc
  | m + 1, i, st, acc =>
    match stayRow g tok cfg enums fk_map ref_ids cols i st with
    | .error e => .error e
    | .ok (row, st2) => stayRowsLoop g tok cfg enums fk_map ref_ids cols m (i + 1) st2 (acc ++ [row])

/-- Continuation of `generate_stay_rows` after the capacity guard: derive the
status enum labels and run the row loop. -/
def status_helper (g : Nat → Nat) (tok : Nat → String)
    (enums : List (String × List String))
    (fk_map : List ((String × String) × (String × String)))
    (ref_ids : List (String × List Value))
    (cols : List ColumnInfo) (n_rows : Nat)
    (reg0 : List ((String × String) × List String)) (j0 : Nat)
    (table_lc : String) (uniq : List String)
    (booking_id_col status_col aci_col aco_col : Option String)
    (bookings : List Value) (is_booking_unique : Bool) :
    Except String (List (List (String × Value))) :=
  let status_ci : Option ColumnInfo :=
    cols.find? (fun c => c.column = status_col.getD "")
  let stay_status_choices : List String :=
    match status_ci with
    | some ci => (lookupEnums enums (lowerStr ci.udt_name)).getD []
    | none => []
  let cfg : StayCfg :=
    ⟨table_lc, booking_id_col, status_col, aci_col, aco_col, bookings, is_booking_unique,
     stay_status_choices⟩
  let seenU0 : List (String × List Value) := uniq.map (fun cname => (cname, []))
  let st0 : GenState := ⟨Value.vnull, 0, j0, seenU0, reg0, []⟩
  stayRowsLoop g tok cfg enums fk_map ref_ids cols n_rows 1 st0 []

/-- `generate_stay_csv` (source lines 700-889), producing the row
dictionaries.  The capacity guard for a UNIQUE `booking_id` (lines 732-738) is
the `.error` case. -/
def generate_stay_rows (g : Nat → Nat) (tok : Nat → String)
    (shuffle : List Value → List Value)
    (table : String) (cols : List ColumnInfo)
    (fk_map : List ((String × String) × (String × String)))
    (ref_ids : List (String × List Value))
    (n_rows : Nat) (enums : List (String × List String))
    (unique_cols : List (String × List String))
    (reg0 : List ((String × String) × List String)) (j0 : Nat) :
    Except String (List (List (String × Value))) :=
  let table_lc := lowerStr table
  let booking_id_col := col_lc_get cols "booking_id"
  let status_col := stay_status_col cols
  let aci_col := col_lc_get cols "actual_checkin_at"
  let aco_col := col_lc_get cols "actual_checkout_at"
  let booking_ids := (alookup ref_ids "booking").getD []
  let uniq : List String := (alookup unique_cols table_lc).getD []
  let is_booking_unique :=
    match booking_id_col with
    | some bc => uniq.contains bc
    | none => false
  if is_booking_unique && booking_ids.length < n_rows then
    .error "booking_id is UNIQUE but too few booking ids exist for requested n_rows"
  else
    let bookings := if is_booking_unique then shuffle booking_ids else booking_ids
    status_helper g tok enums fk_map ref_ids cols n_rows reg0 j0 table_lc uniq
      booking_id_col status_col aci_col aco_col bookings is_booking_unique

/-- The inner `for _ in range(rooms_for_booking)` loop of
`generate_booking_room_csv` (source lines 588-612), reduced to the
booking/room pair skeleton: the remaining columns do not influence control
flow.  `cnt` is the number of iterations left; pairs already seen are skipped,
fresh pairs are recorded, and the loop breaks once `n` rows exist. -/
def bookingRoomInner (g : Nat → Nat) (rids : List Value) (b : Value) (n : Nat) :
    Nat → Nat → List (Value × Value) → List (Value × Value) →
    Nat × List (Value × Value) × List (Value × Value)
  | 0, k, seen, rows => (k, seen, rows)
  | cnt + 1, k, seen, rows =>
    let r := rids.getD (g k % rids.length) Value.vnull
    let pair := (b, r)
    if pair ∈ seen then bookingRoomInner g rids b n cnt (k + 1) seen rows
    else
      let seen2 := seen ++ [pair]
      let rows2 := rows ++ [pair]
      if rows2.length ≥ n then (k + 1, seen2, rows2)
      else bookingRoomInner g rids b n cnt (k + 1) seen2 rows2

/-- The outer `while len(rows) < n_rows` loop of `generate_booking_room_csv`
(source lines 584-613).  The source has no capacity guard and no fallback, so
the loop need not make progress; it is given `fuel` iterations and yields
`none` when the fuel is exhausted with the target still unmet — the Python
loop would simply keep running. -/
def bookingRoomLoop (g : Nat → Nat) (bids rids : List Value) (n : Nat) :
    Nat → Nat → Nat → List (Value × Value) → List (Value × Value) →
    Option (List (Value × Value))
  | 0, _, _, _, _ => none
  | fuel + 1, i, k, seen, rows =>
    if rows.length ≥ n then some rows
    else
      let b := bids.getD (i % bids.length) Value.vnull
      let cnt := 1 + g k % 3
      let r := bookingRoomInner g rids b n cnt (k + 1) seen rows
      bookingRoomLoop g bids rids n fuel (i + 1) r.1 r.2.1 r.2.2

/-- `generate_booking_room_csv` pair generation (source lines 552-621):
empty-pool guards, then the unbounded pairing loop.  There is no check of
`n_rows` against `len(booking_ids) * len(room_ids)`. -/
def generate_booking_room_pairs (g : Nat → Nat) (shuffle : List Value → List Value)
    (booking_ids room_ids : List Value) (n_rows fuel : Nat) :
    Except String (Option (List (Value × Value))) :=
  if booking_ids.isEmpty || room_ids.isEmpty then
    .error "booking_room needs booking and room ids available before generation."
  else
    .ok (bookingRoomLoop g (shuffle booking_ids) room_ids n_rows fuel 0 0 [] [])

/-- The inner `for _ in range(promos_for_booking)` loop of
`generate_booking_discount_csv` (source lines 944-969). -/
def bookingDiscountInner (g : Nat → Nat) (pids : List Value) (b : Value) (n : Nat) :
    Nat → Nat → List (Value × Value) → List (Value × Value) →
    Nat × List (Value × Value) × List (Value × Value)
  | 0, k, seen, rows => (k, seen, rows)
  | cnt + 1, k, seen, rows =>
    let p := pids.getD (g k % pids.length) Value.vnull
    let pair := (b, p)
    if pair ∈ seen then bookingDiscountInner g pids b n cnt (k + 1) seen rows
    else
      let seen2 := seen ++ [pair]
      let rows2 := rows ++ [pair]
      if rows2.length ≥ n then (k + 1, seen2, rows2)
      else bookingDiscountInner g pids b n cnt (k + 1) seen2 rows2

/-- The deterministic cartesian-product fill used as a fallback by
`generate_booking_discount_csv` once `i > n_rows * 20` (source lines 973-998). -/
def cartesianFill (bids pids : List Value) (n : Nat)
    (seen rows : List (Value × Value)) : List (Value × Value) :=
  (bids.foldl (fun st b2 =>
    pids.foldl (fun st2 p2 =>
      if st2.2.length ≥ n then st2
      else if (b2, p2) ∈ st2.1 then st2
      else (st2.1 ++ [(b2, p2)], st2.2 ++ [(b2, p2)]))
      st)
    (seen, rows)).2

/-- The `while len(rows) < n_rows` loop of `generate_booking_discount_csv`
(source lines 936-998), including the `promos_for_booking == 0` skip and the
fallback fill.  Reached only after the capacity guard, so once the fallback
runs the target is met and the loop exits; `none` marks fuel exhaustion. -/
def bookingDiscountLoop (g : Nat → Nat) (bids pids : List Value) (n : Nat) :
    Nat → Nat → Nat → List (Value × Value) → List (Value × Value) →
    Option (List (Value × Value))
  | 0, _, _, _, _ => none
  | fuel + 1, i, k, seen, rows =>
    if rows.length ≥ n then some rows
    else
      let b := bids.getD (i % bids.length) Value.vnull
      let cnt := g k % 3
      let r :=
        if cnt = 0 then (k + 1, seen, rows)
        else bookingDiscountInner g pids b n cnt (k + 1) seen rows
      let i2 := i + 1
      if i2 > n * 20 && r.2.2.length < n then
        let filled := cartesianFill bids pids n r.2.1 r.2.2
        if filled.length ≥ n then some filled
        else bookingDiscountLoop g bids pids n fuel i2 r.1 r.2.1 filled
      else bookingDiscountLoop g bids pids n fuel i2 r.1 r.2.1 r.2.2

/-- `generate_booking_discount_csv` pair generation (source lines 892-1006):
empty-pool guards, then the explicit capacity guard
`n_rows > len(booking_ids) * len(promo_ids)` (lines 930-934), then the loop. -/
def generate_booking_discount_pairs (g : Nat → Nat) (shuffle : List Value → List Value)
    (booking_ids promo_ids : List Value) (n_rows fuel : Nat) :
    Except String (Option (List (Value × Value))) :=
  if booking_ids.isEmpty || promo_ids.isEmpty then
    .error "booking_discount needs booking + promotion ids loaded first."
  else if n_rows > booking_ids.length * promo_ids.length then
    .error "Requested more booking_discount rows than unique pairs exist."
  else
    .ok (bookingDiscountLoop g (shuffle booking_ids) promo_ids n_rows fuel 0 0 [] [])

/-- `(end - start).days` for `generate_room_night_csv`: the window runs from
730 days in the past to 365 days in the future (source lines 650-652). -/
def room_night_total_days : Nat := 730 + 365

/-- The per-room inner loop of `generate_room_night_csv` (source lines
665-689): iterate the sampled offsets, skip already-seen pairs, stop once `n`
rows exist.  A night is identified by its day offset from the window start. -/
def roomNightInner (rid : Value) (n : Nat) :
    List Nat → List (Value × Nat) → List (Value × Nat) →
    List (Value × Nat) × List (Value × Nat)
  | [], seen, rows => (seen, rows)
  | off :: rest, seen, rows =>
    let pair := (rid, off)
    if pair ∈ seen then roomNightInner rid n rest seen rows
    else
      let seen2 := seen ++ [pair]
      let rows2 := rows ++ [pair]
      if rows2.length ≥ n then (seen2, rows2)
      else roomNightInner rid n rest seen2 rows2

/-- The `for rid in room_ids` loop of `generate_room_night_csv` (source lines
660-689).  `sample idx m cnt` models `random.sample(range(m), k=cnt)` for the
`idx`-th room processed. -/
def roomNightLoop (sample : Nat → Nat → Nat → List Nat) (per_room n : Nat) :
    List Value → Nat → List (Value × Nat) → List (Value × Nat) → List (Value × Nat)
  | [], _, _, rows => rows
  | rid :: rest, idx, seen, rows =>
    if rows.length ≥ n then rows
    else
      let cnt := min per_room room_night_total_days
      let offsets := sample idx room_night_total_days cnt
      let r := roomNightInner rid n offsets seen rows
      roomNightLoop sample per_room n rest (idx + 1) r.1 r.2

/-- `generate_room_night_csv` pair generation (source lines 624-697): the
empty-pool guard, `per_room = max(1, n_rows // len(room_ids))`, the per-room
expansion, and the final `rows[:n_rows]` truncation.  No capacity or shortfall
check exists anywhere on the path. -/
def generate_room_night_pairs (sample : Nat → Nat → Nat → List Nat)
    (shuffle : List Value → List Value) (room_ids : List Value) (n_rows : Nat) :
    Except String (List (Value × Nat)) :=
  if room_ids.isEmpty then
    .error "room_night needs room ids available before generation."
  else
    let per_room := max 1 (n_rows / room_ids.length)
    .ok ((roomNightLoop sample per_room n_rows (shuffle room_ids) 0 [] []).take n_rows)

/-- `cache_pk_values` (source lines 1524-1538): after a table's load, if the
table has a single-column primary key, overwrite `ref_ids[table.lower()]` with
the key values read back from the database (`dbRead table pk_col`, the
`SELECT pk FROM table ORDER BY pk` result); otherwise return with `ref_ids`
untouched. -/
def cache_pk_values (dbRead : String → String → List Value)
    (table : String) (pk : Option PrimaryKey)
    (ref_ids : List (String × List Value)) : List (String × List Value) :=
  match pk with
  | none => ref_ids
  | some p =>
    if p.columns.length ≠ 1 then ref_ids
    else aset ref_ids (lowerStr table) (dbRead table (p.columns.headD ""))

/-- The restricted FK edges used by `topo_sort_tables`: only edges whose two
endpoints are both in the table list (source line 339). -/
def restrictedFks (tables : List String) (fks : List ForeignKey) : List ForeignKey :=
  fks.filter (fun fk => fk.table ∈ tables && fk.ref_table ∈ tables)

/-- `deps[t]` as initialized by `topo_sort_tables` (source lines 335-341):
the set of parents of `t` among the in-scope edges. -/
def deps0 (tables : List String) (fks : List ForeignKey) (t : String) : List String :=
  (((restrictedFks tables fks).filter (fun fk => fk.table = t)).map
    (fun fk => fk.ref_table)).dedup

/-- `rdeps[p]`: the children of `p` among the in-scope edges. -/
def rdeps0 (tables : List String) (fks : List ForeignKey) (p : String) : List String :=
  (((restrictedFks tables fks).filter (fun fk => fk.ref_table = p)).map
    (fun fk => fk.table)).dedup

/-- One step of the inner `for m in sorted(rdeps[n])` loop (source lines
349-352): discard `n` from `deps[m]` and append `m` to the queue when its
dependencies are exhausted and it is in neither `out` nor the queue. -/
def kahnFold (n : String) (out : List String) :
    ((String → List String) × List String) → String → ((String → List String) × List String) :=
  fun st m =>
    let dm := (st.1 m).filter (fun x => x ≠ n)
    let deps2 : String → List String := fun t => if t = m then dm else st.1 t
    if dm = [] ∧ m ∉ out ∧ m ∉ st.2 then (deps2, st.2 ++ [m]) else (deps2, st.2)

/-- The `while q` loop of `topo_sort_tables` (source lines 346-353), with
explicit fuel.  Returns the final `out` together with the remaining queue;
`topo_sort_tables` supplies enough fuel for the queue to drain (proved below). -/
def kahnLoop (rd : String → List String) :
    Nat → (String → List String) → List String → List String →
    (String → List String) × List String × List String
  | 0, deps, q, out => (deps, q, out)
  | _ + 1, deps, [], out => (deps, [], out)
  | fuel + 1, deps, n :: q, out =>
    let out2 := out ++ [n]
    let st := (sortStr (rd n)).foldl (kahnFold n out2) (deps, q)
    kahnLoop rd fuel st.1 (sortStr st.2) out2

/-- `topo_sort_tables(tables, fks)` (source lines 334-356): Kahn's algorithm
with a lexicographic queue, followed by the remaining (cyclic) tables appended
in lexicographic order. -/
def topo_sort_tables (tables : List String) (fks : List ForeignKey) : List String :=
  let d0 := deps0 tables fks
  let q0 := sortStr (tables.filter (fun t => (d0 t).isEmpty))
  let r := kahnLoop (rdeps0 tables fks) (2 * tables.length + 1) d0 q0 []
  let out := r.2.2
  out ++ sortStr (tables.filter (fun t => t ∉ out))

/-! ## Dictionary lemmas -/

theorem alookup_aset_self {α : Type} (m : List (String × α)) (key : String) (v : α) :
    alookup (aset m key v) key = some v := by
  induction m with
  | nil => simp [aset, alookup]
  | cons p rest ih =>
    by_cases h : p.1 = key
    · simp [aset, h, alookup]
    · simp [aset, h, alookup, ih]

theorem alookup_aset_other {α : Type} (m : List (String × α)) (key key2 : String) (v : α)
    (h : key2 ≠ key) : alookup (aset m key v) key2 = alookup m key2 := by
  have hks : ¬ key = key2 := fun he => h he.symm
  induction m with
  | nil => simp [aset, alookup, hks]
  | cons p rest ih =>
    by_cases hp : p.1 = key
    · simp [aset, hp, alookup, hks]
    · by_cases hp2 : p.1 = key2
      · simp [aset, hp, alookup, hp2, h]
      · simp [aset, hp, alookup, hp2, ih]

theorem alookup_aset_isSome {α : Type} (m : List (String × α)) (key key2 : String) (v : α)
    (h : (alookup m key2).isSome) : (alookup (aset m key v) key2).isSome := by
  by_cases he : key2 = key
  · subst he; rw [alookup_aset_self]; rfl
  · rw [alookup_aset_other m key key2 v he]; exact h

theorem plookup_pset_self {α : Type} (m : List ((String × String) × α)) (key : String × String)
    (v : α) : plookup (pset m key v) key = some v := by
  induction m with
  | nil => simp [pset, plookup]
  | cons p rest ih =>
    by_cases h : p.1 = key
    · simp [pset, h, plookup]
    · simp [pset, h, plookup, ih]

theorem plookup_pset_other {α : Type} (m : List ((String × String) × α))
    (key key2 : String × String) (v : α) (h : key2 ≠ key) :
    plookup (pset m key v) key2 = plookup m key2 := by
  have hks : ¬ key = key2 := fun he => h he.symm
  induction m with
  | nil => simp [pset, plookup, hks]
  | cons p rest ih =>
    by_cases hp : p.1 = key
    · simp [pset, hp, plookup, hks]
    · by_cases hp2 : p.1 = key2
      · simp [pset, hp, plookup, hp2, h]
      · simp [pset, hp, plookup, hp2, ih]

/-! ## C10: `unique_text` budget exhaustion returns `None` -/

theorem unique_text_loop_exhausts (seen : List String) (mk : Nat → String) :
    ∀ (t j : Nat), (∀ m, j ≤ m → m < j + t → mk m = "" ∨ mk m ∈ seen) →
      unique_text_loop seen mk j t = none := by
  intro t
  induction t with
  | zero => intro j _; rfl
  | succ b ih =>
    intro j h
    have h0 : mk j = "" ∨ mk j ∈ seen := h j le_rfl (by omega)
    have hcond : (decide (mk j ≠ "") && decide (mk j ∉ seen)) = false := by
      rcases h0 with h1 | h1 <;> simp [h1]
    simp only [unique_text_loop, hcond, Bool.false_eq_true, if_false]
    exact ih (j + 1) (fun m hm1 hm2 => h m (by omega) (by omega))

/-- C10: when every candidate the supplied generator produces within the
200,000-try budget is empty (after stripping) or already issued for the
registry key, `unique_text` falls off the end of its loop and returns `None`
— no error is raised and no distinct value is forced, although the function
is annotated as returning `str`. -/
theorem unique_text_exhausted_returns_none (seen : List String) (mk : Nat → String)
    (h : ∀ m, m < 200000 → mk m = "" ∨ mk m ∈ seen) :
    unique_text seen mk 200000 0 = none :=
  unique_text_loop_exhausts seen mk 200000 0 (fun m hm1 hm2 => h m (by omega))

theorem unique_text_exhausted_returns_none_witness :
    unique_text ["a"] (fun _ => "a") 200000 0 = none :=
  unique_text_exhausted_returns_none ["a"] (fun _ => "a")
    (fun _ _ => Or.inr (by simp))

/-! ## C7: the post-load primary-key re-read -/

/-- C7: after a table's bulk load, `cache_pk_values` overwrites exactly the
table's own (lowercased) entry in `ref_ids` with the key list read back from
the database when the table has a single-column primary key — superseding any
entry stored during assembly — and leaves `ref_ids` entirely unchanged when
the primary key is absent or composite; no other table's entry is ever
touched. -/
theorem cache_pk_values_frame (dbRead : String → String → List Value)
    (table : String) (pk : Option PrimaryKey) (ref_ids : List (String × List Value)) :
    (∀ p c, pk = some p → p.columns = [c] →
        alookup (cache_pk_values dbRead table pk ref_ids) (lowerStr table) =
          some (dbRead table c) ∧
        (∀ t, t ≠ lowerStr table →
          alookup (cache_pk_values dbRead table pk ref_ids) t = alookup ref_ids t) ∧
        (∀ pkv, alookup (cache_pk_values dbRead table pk
            (aset ref_ids (lowerStr table) pkv)) (lowerStr table) = some (dbRead table c))) ∧
    ((∀ p, pk = some p → p.columns.length ≠ 1) →
        cache_pk_values dbRead table pk ref_ids = ref_ids) := by
  constructor
  · intro p c hp hc
    subst hp
    simp only [cache_pk_values, hc]
    refine ⟨?_, ?_, ?_⟩
    · simp [alookup_aset_self, List.headD]
    · intro t ht
      simp [alookup_aset_other _ _ _ _ ht]
    · intro pkv
      simp [alookup_aset_self, List.headD]
  · intro h
    cases pk with
    | none => rfl
    | some p =>
      have := h p rfl
      simp only [cache_pk_values, if_pos this]

theorem cache_pk_values_frame_witness :
    alookup (cache_pk_values (fun _ _ => [Value.vint 5]) "Stay" (some ⟨"Stay", ["stay_id"]⟩)
        [("hotel", [Value.vint 7]), ("stay", [Value.vint 99])]) "stay" =
      some [Value.vint 5] ∧
    alookup (cache_pk_values (fun _ _ => [Value.vint 5]) "Stay" (some ⟨"Stay", ["stay_id"]⟩)
        [("hotel", [Value.vint 7]), ("stay", [Value.vint 99])]) "hotel" =
      some [Value.vint 7] ∧
    cache_pk_values (fun _ _ => [Value.vint 5]) "booking_room"
        (some ⟨"booking_room", ["booking_id", "room_id"]⟩) [("hotel", [Value.vint 7])] =
      [("hotel", [Value.vint 7])] := by
  have hlow : lowerStr "Stay" = "stay" := rfl
  have h1 := (cache_pk_values_frame (fun _ _ => [Value.vint 5]) "Stay"
    (some ⟨"Stay", ["stay_id"]⟩) [("hotel", [Value.vint 7]), ("stay", [Value.vint 99])]).1
    ⟨"Stay", ["stay_id"]⟩ "stay_id" rfl rfl
  refine ⟨?_, ?_, ?_⟩
  · have h2 := h1.1
    rwa [hlow] at h2
  · have h2 := h1.2.1 "hotel" (by rw [hlow]; decide)
    rw [h2]
    decide
  · exact (cache_pk_values_frame (fun _ _ => [Value.vint 5]) "booking_room"
      (some ⟨"booking_room", ["booking_id", "room_id"]⟩) [("hotel", [Value.vint 7])]).2
      (fun p hp => by cases hp; decide)

/-! ## C1: a generated foreign-key value escapes a non-empty pool -/

/-- A stay-table schema with a plain text column followed by a non-nullable
foreign-key column referencing `hotel`. -/
def c1cols : List ColumnInfo :=
  [⟨"stay", "notes", "text", "text", true, none, none, none⟩,
   ⟨"stay", "hotel_id", "integer", "int4", false, none, none, none⟩]

/-- FK map with the single edge stay.hotel_id -> hotel.hotel_id. -/
def c1fk_map : List ((String × String) × (String × String)) :=
  build_fk_map [⟨"stay", "hotel_id", "hotel", "hotel_id"⟩]

/-- A non-empty reference pool for `hotel`. -/
def hotelPool : List Value := [.vint 7, .vint 8, .vint 9]

/-- C1 (failing evaluation): the stay assembler resolves `hotel_id` from the
non-empty pool at line 812, but line 879 unconditionally overwrites
`row[c.column]` with the Python variable `v`, which still holds the previous
column's text value; the emitted foreign-key value `"t_0"` is not a member of
the pool `[7, 8, 9]`. -/
theorem stay_fk_value_outside_pool :
    generate_stay_rows (fun _ => 0) (fun j => toString j) id "stay" c1cols c1fk_map
        [("hotel", hotelPool)] 1 [] [] [] 0 =
      .ok [[("notes", Value.vstr "t_0"), ("hotel_id", Value.vstr "t_0")]] ∧
    Value.vstr "t_0" ∉ hotelPool ∧ hotelPool ≠ [] :=
  ⟨rfl, by decide, by decide⟩

/-! ## C3: the forced uniqueness fallback re-issues an already-issued value -/

/-- A generic table with a plain integer column followed by an integer column
under a single-column UNIQUE constraint. -/
def c3cols : List ColumnInfo :=
  [⟨"t", "val_num", "integer", "int4", true, none, none, none⟩,
   ⟨"t", "ucol", "integer", "int4", true, none, none, none⟩]

/-- Oracle: the second random draw yields 3050 (value 3051), every other
draw yields 0 (value 1). -/
def c3g : Nat → Nat := fun k => if k = 1 then 3050 else 0

/-- The three rows the generic assembler emits for `c3cols` under `c3g`. -/
def c3rows : List (List (String × Value)) :=
  [[("val_num", Value.vint 1), ("ucol", Value.vint 1)],
   [("val_num", Value.vint 3051), ("ucol", Value.vint 3051)],
   [("val_num", Value.vint 1), ("ucol", Value.vint 3051)]]

/-- C3 (failing evaluation): on row 3 the unique column's candidate `1`
collides for all 50 retries, so the deterministic fallback computes
`1 + 3 * 1000 + 50 = 3051` — exactly the value issued for row 2 — and adds it
without re-checking the seen set, so the UNIQUE column receives a duplicate. -/
theorem generic_unique_fallback_duplicates :
    generate_table_rows c3g (fun j => toString j) id "t" c3cols none [] [] 3 []
        [("t", ["ucol"])] [] 0 = .ok (c3rows, []) ∧
    ¬ ((c3rows.map (fun r => alookup r "ucol")).Nodup) :=
  ⟨rfl, by decide⟩

/-! ## C4 counterexample: stay writes null into a non-nullable column -/

/-- A stay schema whose `actual_checkin_at` is declared NOT NULL. -/
def c4cols : List ColumnInfo :=
  [⟨"stay", "stay_status", "USER-DEFINED", "stay_status_t", false, none, none, none⟩,
   ⟨"stay", "actual_checkin_at", "timestamp without time zone", "timestamp", false, none,
    none, none⟩,
   ⟨"stay", "actual_checkout_at", "timestamp without time zone", "timestamp", true, none,
    none, none⟩]

/-- The stay status enum labels. -/
def c4enums : List (String × List String) :=
  [("stay_status_t", ["CANCELLED", "CHECKED_OUT", "CHECKED_IN"])]

/-- C4 counterexample: for a cancelled stay the assembler writes `None` into
both actual timestamps before the column loop runs, and the column loop skips
keys already present, so the declared non-nullability of `actual_checkin_at`
is ignored and the emitted row carries a null in a non-nullable column. -/
theorem stay_cancelled_nulls_nonnullable_column :
    generate_stay_rows (fun _ => 0) (fun j => toString j) id "stay" c4cols [] [] 1 c4enums
        [] [] 0 =
      .ok [[("stay_status", Value.vstr "CANCELLED"), ("actual_checkin_at", Value.vnull),
            ("actual_checkout_at", Value.vnull)]] ∧
    (c4cols.any (fun c => c.column = "actual_checkin_at" && !c.is_nullable)) = true :=
  ⟨rfl, by decide⟩

/-! ## C5 counterexample: a foreign-key cycle defeats parent-before-child -/

/-- Two tables referencing each other. -/
def cycFks : List ForeignKey := [⟨"a", "x", "b", "y"⟩, ⟨"b", "z", "a", "w"⟩]

/-- C5 counterexample: with the cyclic edges `a -> b` and `b -> a` the Kahn
phase peels nothing and the fallback appends both tables in lexicographic
order, so for the edge whose child is `a` and parent is `b` the parent does
not precede the child. -/
theorem topo_cycle_breaks_parent_first :
    topo_sort_tables ["a", "b"] cycFks = ["a", "b"] ∧
    ¬ (∀ l₁ l₂, topo_sort_tables ["a", "b"] cycFks = l₁ ++ "a" :: l₂ → "b" ∈ l₁) := by
  have he : topo_sort_tables ["a", "b"] cycFks = ["a", "b"] := by decide
  refine ⟨he, fun h => ?_⟩
  have := h [] ["b"] (by rw [he]; rfl)
  simp at this

/-! ## Kahn machinery: sorting and dependency-map lemmas -/

theorem insertSorted_perm (a : String) (l : List String) :
    (insertSorted a l).Perm (a :: l) := by
  induction l with
  | nil => exact List.Perm.refl _
  | cons b t ih =>
    simp only [insertSorted]
    split
    · exact List.Perm.refl _
    · exact (ih.cons b).trans (List.Perm.swap a b t)

theorem sortStr_perm (l : List String) : (sortStr l).Perm l := by
  induction l with
  | nil => exact List.Perm.refl _
  | cons b t ih => exact (insertSorted_perm b (sortStr t)).trans (ih.cons b)

theorem mem_sortStr {a : String} {l : List String} : a ∈ sortStr l ↔ a ∈ l :=
  (sortStr_perm l).mem_iff

theorem length_sortStr (l : List String) : (sortStr l).length = l.length :=
  (sortStr_perm l).length_eq

theorem filter_length_mono {α : Type} (l : List α) (p q : α → Bool)
    (h : ∀ x ∈ l, p x = true → q x = true) :
    (l.filter p).length ≤ (l.filter q).length := by
  induction l with
  | nil => simp
  | cons x rest ih =>
    have ih2 := ih (fun y hy => h y (List.mem_cons_of_mem x hy))
    by_cases hp : p x = true
    · have hq := h x (List.mem_cons_self x rest) hp
      simp [List.filter, hp, hq]
      omega
    · have hp2 : p x = false := by revert hp; cases p x <;> simp
      by_cases hq : q x = true
      · simp [List.filter, hp2, hq]
        omega
      · have hq2 : q x = false := by revert hq; cases q x <;> simp
        simp [List.filter, hp2, hq2]
        omega

theorem filter_length_drop {α : Type} (l : List α) (p q : α → Bool) (m : α) (hm : m ∈ l)
    (himp : ∀ x ∈ l, p x = true → q x = true) (hqm : q m = true) (hpm : p m = false) :
    (l.filter p).length + 1 ≤ (l.filter q).length := by
  induction l with
  | nil => cases hm
  | cons x rest ih =>
    rcases List.mem_cons.mp hm with rfl | hm2
    · have hmono := filter_length_mono rest p q (fun y hy => himp y (List.mem_cons_of_mem m hy))
      simp [List.filter, hpm, hqm]
      omega
    · have ih2 := ih hm2 (fun y hy => himp y (List.mem_cons_of_mem x hy))
      by_cases hp : p x = true
      · have hq := himp x (List.mem_cons_self x rest) hp
        simp [List.filter, hp, hq]
        omega
      · have hp2 : p x = false := by revert hp; cases p x <;> simp
        by_cases hq : q x = true
        · simp [List.filter, hp2, hq]
          omega
        · have hq2 : q x = false := by revert hq; cases q x <;> simp
          simp [List.filter, hp2, hq2]
          omega

theorem mem_deps0 {tables : List String} {fks : List ForeignKey} {t p : String} :
    p ∈ deps0 tables fks t ↔
      ∃ fk ∈ fks, fk.table = t ∧ fk.ref_table = p ∧ fk.table ∈ tables ∧ fk.ref_table ∈ tables := by
  simp only [deps0, restrictedFks, List.mem_dedup, List.mem_map, List.mem_filter,
    Bool.and_eq_true, decide_eq_true_eq]
  constructor
  · rintro ⟨fk, ⟨⟨hfk, h1, h2⟩, ht⟩, rfl⟩
    exact ⟨fk, hfk, ht, rfl, h1, h2⟩
  · rintro ⟨fk, hfk, rfl, rfl, h1, h2⟩
    exact ⟨fk, ⟨⟨hfk, h1, h2⟩, rfl⟩, rfl⟩

theorem mem_rdeps0 {tables : List String} {fks : List ForeignKey} {n t : String} :
    t ∈ rdeps0 tables fks n ↔ n ∈ deps0 tables fks t := by
  rw [mem_deps0]
  simp only [rdeps0, restrictedFks, List.mem_dedup, List.mem_map, List.mem_filter,
    Bool.and_eq_true, decide_eq_true_eq]
  constructor
  · rintro ⟨fk, ⟨⟨hfk, h1, h2⟩, hn⟩, rfl⟩
    exact ⟨fk, hfk, rfl, hn, h1, h2⟩
  · rintro ⟨fk, hfk, rfl, rfl, h1, h2⟩
    exact ⟨fk, ⟨⟨hfk, h1, h2⟩, rfl⟩, rfl⟩

theorem deps0_subset {tables : List String} {fks : List ForeignKey} {t p : String}
    (h : p ∈ deps0 tables fks t) : p ∈ tables := by
  rcases mem_deps0.mp h with ⟨fk, _, _, hp, _, h2⟩
  exact hp ▸ h2

theorem rdeps0_subset {tables : List String} {fks : List ForeignKey} {n t : String}
    (h : t ∈ rdeps0 tables fks n) : t ∈ tables := by
  rcases mem_deps0.mp (mem_rdeps0.mp h) with ⟨fk, _, ht, _, h1, _⟩
  exact ht ▸ h1

theorem kahnFold_fst (n : String) (out2 : List String) (deps : String → List String)
    (q : List String) (m0 : String) :
    (kahnFold n out2 (deps, q) m0).1 =
      fun t => if t = m0 then (deps m0).filter (fun x => x ≠ n) else deps t := by
  simp only [kahnFold]
  split <;> rfl

theorem kahnFold_snd (n : String) (out2 : List String) (deps : String → List String)
    (q : List String) (m0 : String) :
    ((kahnFold n out2 (deps, q) m0).2 = q ∧
      ¬ ((deps m0).filter (fun x => x ≠ n) = [] ∧ m0 ∉ out2 ∧ m0 ∉ q)) ∨
      ((kahnFold n out2 (deps, q) m0).2 = q ++ [m0] ∧ m0 ∉ out2 ∧ m0 ∉ q ∧
        (deps m0).filter (fun x => x ≠ n) = []) := by
  simp only [kahnFold]
  split
  case isTrue hc => exact Or.inr ⟨rfl, hc.2.1, hc.2.2, hc.1⟩
  case isFalse hc => exact Or.inl ⟨rfl, hc⟩

theorem kahnFold_run (n : String) (out2 : List String) :
    ∀ (ms : List String) (deps : String → List String) (q : List String), ms.Nodup →
      (∀ t, (ms.foldl (kahnFold n out2) (deps, q)).1 t =
          if t ∈ ms then (deps t).filter (fun x => x ≠ n) else deps t) ∧
      (∀ x ∈ q, x ∈ (ms.foldl (kahnFold n out2) (deps, q)).2) ∧
      (∀ x ∈ (ms.foldl (kahnFold n out2) (deps, q)).2, x ∈ q ∨ x ∈ ms) ∧
      (q.Nodup → (ms.foldl (kahnFold n out2) (deps, q)).2.Nodup) ∧
      ((∀ x ∈ q, x ∉ out2) → ∀ x ∈ (ms.foldl (kahnFold n out2) (deps, q)).2, x ∉ out2) ∧
      ((∀ m ∈ q, deps m = []) → ∀ m ∈ (ms.foldl (kahnFold n out2) (deps, q)).2,
        (ms.foldl (kahnFold n out2) (deps, q)).1 m = []) ∧
      (∀ t ∈ ms, (ms.foldl (kahnFold n out2) (deps, q)).1 t = [] →
        t ∈ (ms.foldl (kahnFold n out2) (deps, q)).2 ∨ t ∈ out2) := by
  intro ms
  induction ms with
  | nil =>
    intro deps q _
    refine ⟨fun t => by simp, fun x hx => hx, fun x hx => Or.inl hx, fun h => h,
      fun h => h, fun h m hm => h m hm, fun t ht => absurd ht (List.not_mem_nil t)⟩
  | cons m0 rest ih =>
    intro deps q hnd
    have hm0r : m0 ∉ rest := (List.nodup_cons.mp hnd).1
    have hrest : rest.Nodup := (List.nodup_cons.mp hnd).2
    have hfold : (m0 :: rest).foldl (kahnFold n out2) (deps, q) =
        rest.foldl (kahnFold n out2)
          ((kahnFold n out2 (deps, q) m0).1, (kahnFold n out2 (deps, q) m0).2) := rfl
    have hd1t : ∀ s, (kahnFold n out2 (deps, q) m0).1 s =
        if s = m0 then (deps m0).filter (fun x => x ≠ n) else deps s :=
      fun s => congrFun (kahnFold_fst n out2 deps q m0) s
    obtain ⟨IH1, IH2, IH3, IH4, IH5, IH6, IH7⟩ :=
      ih (kahnFold n out2 (deps, q) m0).1 (kahnFold n out2 (deps, q) m0).2 hrest
    have hsub : ∀ x ∈ (kahnFold n out2 (deps, q) m0).2, x ∈ q ∨ x = m0 := by
      rcases kahnFold_snd n out2 deps q m0 with ⟨he, _⟩ | ⟨he, _, _, _⟩ <;> rw [he] <;>
        intro x hx
      · exact Or.inl hx
      · rcases List.mem_append.mp hx with h | h
        · exact Or.inl h
        · exact Or.inr (List.mem_singleton.mp h)
    have hq2 : ∀ x ∈ q, x ∈ (kahnFold n out2 (deps, q) m0).2 := by
      rcases kahnFold_snd n out2 deps q m0 with ⟨he, _⟩ | ⟨he, _, _, _⟩ <;> rw [he] <;>
        intro x hx
      · exact hx
      · exact List.mem_append.mpr (Or.inl hx)
    refine ⟨?_, ?_, ?_, ?_, ?_, ?_, ?_⟩
    · intro t
      rw [hfold, IH1 t, hd1t t]
      by_cases htr : t ∈ rest
      · have htm : ¬ t = m0 := fun he => hm0r (he ▸ htr)
        simp [htr, htm]
      · by_cases htm : t = m0
        · subst htm
          simp [htr]
        · simp [htr, htm]
    · intro x hx
      rw [hfold]
      exact IH2 x (hq2 x hx)
    · intro x hx
      rw [hfold] at hx
      rcases IH3 x hx with h | h
      · rcases hsub x h with h2 | h2
        · exact Or.inl h2
        · exact Or.inr (h2 ▸ List.mem_cons_self m0 rest)
      · exact Or.inr (List.mem_cons_of_mem m0 h)
    · intro hqn
      rw [hfold]
      refine IH4 ?_
      rcases kahnFold_snd n out2 deps q m0 with ⟨he, _⟩ | ⟨he, _, hnq, _⟩ <;> rw [he]
      · exact hqn
      · simp [List.nodup_append, hqn, hnq]
    · intro hqo x hx
      rw [hfold] at hx
      refine IH5 ?_ x hx
      intro y hy
      rcases kahnFold_snd n out2 deps q m0 with ⟨he, _⟩ | ⟨he, hno, _, _⟩ <;> rw [he] at hy
      · exact hqo y hy
      · rcases List.mem_append.mp hy with h | h
        · exact hqo y h
        · exact (List.mem_singleton.mp h) ▸ hno
    · intro hqe m hm
      rw [hfold] at hm ⊢
      refine IH6 ?_ m hm
      intro y hy
      have hy2 : y ∈ q ∨ y = m0 := hsub y hy
      rw [hd1t y]
      by_cases hym : y = m0
      · rw [if_pos hym]
        rcases hy2 with h | h
        · have hde := hqe y h
          rw [hym] at hde
          rw [hde]
          rfl
        · rcases kahnFold_snd n out2 deps q m0 with ⟨he, _⟩ | ⟨_, _, _, hde⟩
          · rw [he] at hy
            have hde2 := hqe y hy
            rw [hym] at hde2
            rw [hde2]
            rfl
          · exact hde
      · rw [if_neg hym]
        rcases hy2 with h | h
        · exact hqe y h
        · exact absurd h hym
    · intro t ht hte
      rw [hfold] at hte ⊢
      rcases List.mem_cons.mp ht with heq | htr
      · have htr2 : t ∉ rest := by rw [heq]; exact hm0r
        rw [IH1 t, if_neg htr2, hd1t t, if_pos heq] at hte
        rcases kahnFold_snd n out2 deps q m0 with ⟨he, hnc⟩ | ⟨he, _, _, _⟩
        · by_cases hto : t ∈ out2
          · exact Or.inr hto
          · have htq : t ∈ q := by
              by_contra htq
              rw [heq] at hto htq
              exact hnc ⟨hte, hto, htq⟩
            exact Or.inl (IH2 t (hq2 t htq))
        · refine Or.inl (IH2 t ?_)
          rw [he, heq]
          exact List.mem_append.mpr (Or.inr (List.mem_singleton.mpr rfl))
      · exact IH7 t htr hte

/-- The invariant of the Kahn loop that yields the ordering property: queued
tables have no outstanding dependencies, the dependency map is the initial one
minus everything already emitted, every emitted table's restricted parents
precede it in `out`, and a table with no outstanding dependencies is queued or
emitted. -/
def KOrd (tables : List String) (fks : List ForeignKey)
    (deps : String → List String) (q out : List String) : Prop :=
  (∀ m ∈ q, deps m = []) ∧
  (∀ t, deps t = (deps0 tables fks t).filter (fun p => p ∉ out)) ∧
  (∀ c l₁ l₂, out = l₁ ++ c :: l₂ → ∀ p ∈ deps0 tables fks c, p ∈ l₁) ∧
  (∀ t ∈ tables, deps t = [] → t ∈ q ∨ t ∈ out)

theorem kahnLoop_ord (tables : List String) (fks : List ForeignKey) :
    ∀ (fuel : Nat) (deps : String → List String) (q out : List String),
      KOrd tables fks deps q out →
      KOrd tables fks (kahnLoop (rdeps0 tables fks) fuel deps q out).1
        (kahnLoop (rdeps0 tables fks) fuel deps q out).2.1
        (kahnLoop (rdeps0 tables fks) fuel deps q out).2.2 := by
  intro fuel
  induction fuel with
  | zero => intro deps q out h; exact h
  | succ f ihf =>
    intro deps q out h
    cases q with
    | nil => exact h
    | cons n qrest =>
      obtain ⟨hA, hB, hC, hD⟩ := h
      have hmsnd : (sortStr (rdeps0 tables fks n)).Nodup :=
        (sortStr_perm (rdeps0 tables fks n)).nodup_iff.mpr (List.nodup_dedup _)
      obtain ⟨F1, F2, F3, F4, F5, F6, F7⟩ :=
        kahnFold_run n (out ++ [n]) (sortStr (rdeps0 tables fks n)) deps qrest hmsnd
      refine ihf _ _ _ ⟨?_, ?_, ?_, ?_⟩
      · intro m hm
        exact F6 (fun m2 hm2 => hA m2 (List.mem_cons_of_mem n hm2)) m (mem_sortStr.mp hm)
      · intro t
        rw [F1 t]
        by_cases ht : t ∈ sortStr (rdeps0 tables fks n)
        · rw [if_pos ht, hB t, List.filter_filter]
          refine List.filter_congr ?_
          intro p hp
          by_cases po : p ∈ out <;> by_cases pn : p = n <;>
            simp [po, pn, List.mem_append]
        · rw [if_neg ht, hB t]
          have hnd : n ∉ deps0 tables fks t :=
            fun hc => ht (mem_sortStr.mpr (mem_rdeps0.mpr hc))
          refine List.filter_congr ?_
          intro p hp
          have hpn : ¬ p = n := fun he => hnd (he ▸ hp)
          simp [List.mem_append, hpn]
      · intro c l₁ l₂ he p hp
        rcases l₂.eq_nil_or_concat with rfl | ⟨l₂2, z, rfl⟩
        · have := List.append_inj' he (by rfl)
          obtain ⟨rfl, hcn⟩ := this
          have hcn2 : c = n := by
            injection hcn with h1 _
            exact h1.symm
          subst hcn2
          have hdc := hA c (List.mem_cons_self c qrest)
          rw [hB c] at hdc
          have := List.filter_eq_nil_iff.mp hdc p hp
          simp at this
          exact this
        · have he2 : out ++ [n] = (l₁ ++ c :: l₂2) ++ [z] := by
            rw [he]
            simp [List.concat_eq_append]
          obtain ⟨ho, _⟩ := List.append_inj' he2 (by rfl)
          exact hC c l₁ l₂2 ho p hp
      · intro t htt hte
        by_cases ht : t ∈ sortStr (rdeps0 tables fks n)
        · rcases F7 t ht hte with h | h
          · exact Or.inl (mem_sortStr.mpr h)
          · exact Or.inr h
        · rw [F1 t, if_neg ht] at hte
          have hte2 : deps t = [] := by
            rw [hB t] at hte ⊢
            exact hte
          rcases hD t htt hte2 with h | h
          · rcases List.mem_cons.mp h with heq | hq
            · refine Or.inr ?_
              rw [heq]
              exact List.mem_append.mpr (Or.inr (List.mem_singleton.mpr rfl))
            · exact Or.inl (mem_sortStr.mpr (F2 t hq))
          · exact Or.inr (List.mem_append.mpr (Or.inl h))

/-- The bookkeeping invariant of the Kahn loop used for the permutation
property: `out` and the queue are duplicate-free, disjoint, and drawn from
the table list. -/
def KNod (tables : List String) (q out : List String) : Prop :=
  out.Nodup ∧ q.Nodup ∧ (∀ x ∈ q, x ∉ out) ∧ (∀ x ∈ q, x ∈ tables) ∧ (∀ x ∈ out, x ∈ tables)

theorem kahnLoop_nodup (tables : List String) (fks : List ForeignKey) :
    ∀ (fuel : Nat) (deps : String → List String) (q out : List String),
      KNod tables q out →
      KNod tables (kahnLoop (rdeps0 tables fks) fuel deps q out).2.1
        (kahnLoop (rdeps0 tables fks) fuel deps q out).2.2 := by
  intro fuel
  induction fuel with
  | zero => intro deps q out h; exact h
  | succ f ihf =>
    intro deps q out h
    cases q with
    | nil => exact h
    | cons n qrest =>
      obtain ⟨hOut, hQ, hDisj, hQT, hOT⟩ := h
      have hnq : n ∉ qrest := (List.nodup_cons.mp hQ).1
      have hqr : qrest.Nodup := (List.nodup_cons.mp hQ).2
      have hnout : n ∉ out := hDisj n (List.mem_cons_self n qrest)
      have hout2 : (out ++ [n]).Nodup := by
        rw [List.nodup_append]
        exact ⟨hOut, List.nodup_singleton n,
          fun a ha hb => hnout ((List.mem_singleton.mp hb) ▸ ha)⟩
      have hmsnd : (sortStr (rdeps0 tables fks n)).Nodup :=
        (sortStr_perm (rdeps0 tables fks n)).nodup_iff.mpr (List.nodup_dedup _)
      obtain ⟨F1, F2, F3, F4, F5, F6, F7⟩ :=
        kahnFold_run n (out ++ [n]) (sortStr (rdeps0 tables fks n)) deps qrest hmsnd
      refine ihf _ _ _ ⟨hout2, ?_, ?_, ?_, ?_⟩
      · exact (sortStr_perm _).nodup_iff.mpr (F4 hqr)
      · intro x hx
        refine F5 ?_ x (mem_sortStr.mp hx)
        intro y hy hz
        rcases List.mem_append.mp hz with h | h
        · exact hDisj y (List.mem_cons_of_mem n hy) h
        · exact hnq ((List.mem_singleton.mp h) ▸ hy)
      · intro x hx
        rcases F3 x (mem_sortStr.mp hx) with h | h
        · exact hQT x (List.mem_cons_of_mem n h)
        · exact rdeps0_subset (mem_sortStr.mp h)
      · intro x hx
        rcases List.mem_append.mp hx with h | h
        · exact hOT x h
        · exact (List.mem_singleton.mp h) ▸ hQT n (List.mem_cons_self n qrest)

/-- The termination measure of the Kahn loop: the number of distinct tables
neither queued nor emitted. -/
def kcnt (tables : List String) (q out : List String) : Nat :=
  ((tables.dedup).filter (fun t => t ∉ q && t ∉ out)).length

theorem kahnFold_measure (tables : List String) (n : String) (out2 : List String) :
    ∀ (ms : List String) (deps : String → List String) (q : List String),
      (∀ m ∈ ms, m ∈ tables) →
      (ms.foldl (kahnFold n out2) (deps, q)).2.length +
          kcnt tables (ms.foldl (kahnFold n out2) (deps, q)).2 out2 ≤
        q.length + kcnt tables q out2 := by
  intro ms
  induction ms with
  | nil => intro deps q _; exact le_rfl
  | cons m0 rest ih =>
    intro deps q hms
    have hfold : (m0 :: rest).foldl (kahnFold n out2) (deps, q) =
        rest.foldl (kahnFold n out2)
          ((kahnFold n out2 (deps, q) m0).1, (kahnFold n out2 (deps, q) m0).2) := rfl
    rw [hfold]
    have hrest : ∀ m ∈ rest, m ∈ tables := fun m hm => hms m (List.mem_cons_of_mem m0 hm)
    refine le_trans (ih (kahnFold n out2 (deps, q) m0).1 (kahnFold n out2 (deps, q) m0).2 hrest) ?_
    rcases kahnFold_snd n out2 deps q m0 with ⟨he, _⟩ | ⟨he, hno, hnq2, _⟩
    · rw [he]
    · rw [he]
      have hm0t : m0 ∈ tables.dedup := List.mem_dedup.mpr (hms m0 (List.mem_cons_self m0 rest))
      have hdrop := filter_length_drop (tables.dedup)
        (fun t => t ∉ q ++ [m0] && t ∉ out2) (fun t => t ∉ q && t ∉ out2) m0 hm0t
        (by
          intro x _ hx
          simp only [Bool.and_eq_true, decide_eq_true_eq, List.mem_append,
            List.mem_singleton] at hx ⊢
          exact ⟨fun hxq => hx.1 (Or.inl hxq), hx.2⟩)
        (by simp [hnq2, hno])
        (by simp)
      unfold kcnt
      simp only [List.length_append, List.length_singleton]
      omega

theorem kcnt_congr (tables : List String) (q q2 out : List String)
    (h : ∀ x, x ∈ q ↔ x ∈ q2) : kcnt tables q out = kcnt tables q2 out := by
  unfold kcnt
  refine congrArg List.length (List.filter_congr ?_)
  intro t _
  simp [h t]

theorem kcnt_mono_out (tables : List String) (n : String)
    (qrest out : List String) :
    kcnt tables qrest (out ++ [n]) ≤ kcnt tables (n :: qrest) out := by
  unfold kcnt
  refine filter_length_mono _ _ _ ?_
  intro x _ hx
  simp only [Bool.and_eq_true, decide_eq_true_eq, List.mem_append, List.mem_singleton,
    List.mem_cons] at hx ⊢
  tauto

theorem kahnLoop_drains (tables : List String) (fks : List ForeignKey) :
    ∀ (fuel : Nat) (deps : String → List String) (q out : List String),
      (∀ x ∈ q, x ∈ tables) →
      q.length + kcnt tables q out ≤ fuel →
      (kahnLoop (rdeps0 tables fks) fuel deps q out).2.1 = [] := by
  intro fuel
  induction fuel with
  | zero =>
    intro deps q out _ hle
    cases q with
    | nil => rfl
    | cons n qrest => simp at hle
  | succ f ihf =>
    intro deps q out hq hle
    cases q with
    | nil => rfl
    | cons n qrest =>
      have hmsnd : (sortStr (rdeps0 tables fks n)).Nodup :=
        (sortStr_perm (rdeps0 tables fks n)).nodup_iff.mpr (List.nodup_dedup _)
      have hms : ∀ m ∈ sortStr (rdeps0 tables fks n), m ∈ tables :=
        fun m hm => rdeps0_subset (mem_sortStr.mp hm)
      obtain ⟨F1, F2, F3, F4, F5, F6, F7⟩ :=
        kahnFold_run n (out ++ [n]) (sortStr (rdeps0 tables fks n)) deps qrest hmsnd
      have h1 := kahnFold_measure tables n (out ++ [n])
        (sortStr (rdeps0 tables fks n)) deps qrest hms
      refine ihf _ _ _ ?_ ?_
      · intro x hx
        rcases F3 x (mem_sortStr.mp hx) with h | h
        · exact hq x (List.mem_cons_of_mem n h)
        · exact hms x h
      · have h3 := length_sortStr
          ((sortStr (rdeps0 tables fks n)).foldl (kahnFold n (out ++ [n])) (deps, qrest)).2
        have h4 := kcnt_congr tables
          (sortStr ((sortStr (rdeps0 tables fks n)).foldl
            (kahnFold n (out ++ [n])) (deps, qrest)).2)
          (((sortStr (rdeps0 tables fks n)).foldl
            (kahnFold n (out ++ [n])) (deps, qrest)).2)
          (out ++ [n])
          (fun x => mem_sortStr)
        have h5 := kcnt_mono_out tables n qrest out
        simp only [List.length_cons] at hle
        omega

/-- Every nonempty list of tables has an element of minimal rank. -/
theorem exists_rank_min (f : String → Nat) :
    ∀ (l : List String), l ≠ [] → ∃ m ∈ l, ∀ x ∈ l, f m ≤ f x := by
  intro l
  induction l with
  | nil => intro h; exact absurd rfl h
  | cons a rest ih =>
    intro _
    by_cases hrest : rest = []
    · subst hrest
      refine ⟨a, List.mem_cons_self a [], ?_⟩
      intro x hx
      rcases List.mem_cons.mp hx with rfl | h
      · exact le_rfl
      · cases h
    · obtain ⟨m, hm, hmin⟩ := ih hrest
      by_cases hf : f a ≤ f m
      · refine ⟨a, List.mem_cons_self a rest, ?_⟩
        intro x hx
        rcases List.mem_cons.mp hx with rfl | h
        · exact le_rfl
        · exact le_trans hf (hmin x h)
      · refine ⟨m, List.mem_cons_of_mem a hm, ?_⟩
        intro x hx
        rcases List.mem_cons.mp hx with rfl | h
        · exact Nat.le_of_not_le hf
        · exact hmin x h

/-- C5 (amended): for every table list and foreign-key edge list whose
restricted foreign-key graph is acyclic — witnessed by a rank function that
strictly decreases from child to parent along every in-scope edge — the
planner places the parent strictly before the child for every in-scope edge
(before every occurrence of the child); and the three-table schema
parent <- child <- grandchild plans exactly `[parent, child, grandchild]`.
On cyclic inputs the lexicographic fallback breaks the property (see the
counterexample). -/
theorem topo_sort_parents_first (tables : List String) (fks : List ForeignKey)
    (rank : String → Nat)
    (hrank : ∀ fk ∈ fks, fk.table ∈ tables → fk.ref_table ∈ tables →
      rank fk.ref_table < rank fk.table) :
    (∀ fk ∈ fks, fk.table ∈ tables → fk.ref_table ∈ tables →
      ∀ l₁ l₂, topo_sort_tables tables fks = l₁ ++ fk.table :: l₂ → fk.ref_table ∈ l₁) ∧
    topo_sort_tables ["child", "grandchild", "parent"]
        [⟨"child", "parent_id", "parent", "id"⟩, ⟨"grandchild", "child_id", "child", "id"⟩] =
      ["parent", "child", "grandchild"] := by
  refine ⟨?_, by decide⟩
  intro fk hfk hft hfr
  set K := kahnLoop (rdeps0 tables fks) (2 * tables.length + 1) (deps0 tables fks)
    (sortStr (tables.filter (fun t => (deps0 tables fks t).isEmpty))) [] with hK
  have hq0sub : ∀ x ∈ sortStr (tables.filter (fun t => (deps0 tables fks t).isEmpty)),
      x ∈ tables := by
    intro x hx
    exact (List.mem_filter.mp (mem_sortStr.mp hx)).1
  have hinit : KOrd tables fks (deps0 tables fks)
      (sortStr (tables.filter (fun t => (deps0 tables fks t).isEmpty))) [] := by
    refine ⟨?_, ?_, ?_, ?_⟩
    · intro m hm
      have h2 := (List.mem_filter.mp (mem_sortStr.mp hm)).2
      exact List.isEmpty_iff.mp h2
    · intro t
      symm
      refine List.filter_eq_self.mpr ?_
      intro a _
      simp
    · intro c l₁ l₂ he
      exfalso
      cases l₁ <;> simp at he
    · intro t htt hte
      refine Or.inl (mem_sortStr.mpr (List.mem_filter.mpr ⟨htt, ?_⟩))
      simp [hte]
  have hmeas : (sortStr (tables.filter (fun t => (deps0 tables fks t).isEmpty))).length +
      kcnt tables (sortStr (tables.filter (fun t => (deps0 tables fks t).isEmpty))) [] ≤
      2 * tables.length + 1 := by
    have h1 : (sortStr (tables.filter
        (fun t => (deps0 tables fks t).isEmpty))).length ≤ tables.length := by
      rw [length_sortStr]
      exact List.length_filter_le _ _
    have h2 : kcnt tables (sortStr (tables.filter
        (fun t => (deps0 tables fks t).isEmpty))) [] ≤ tables.length := by
      unfold kcnt
      exact le_trans (List.length_filter_le _ _) ((List.dedup_sublist tables).length_le)
    omega
  have hdrain : K.2.1 = [] := by
    rw [hK]
    exact kahnLoop_drains tables fks (2 * tables.length + 1) (deps0 tables fks)
      (sortStr (tables.filter (fun t => (deps0 tables fks t).isEmpty))) [] hq0sub hmeas
  have hord : KOrd tables fks K.1 K.2.1 K.2.2 := by
    rw [hK]
    exact kahnLoop_ord tables fks (2 * tables.length + 1) (deps0 tables fks)
      (sortStr (tables.filter (fun t => (deps0 tables fks t).isEmpty))) [] hinit
  obtain ⟨hA, hB, hC, hD⟩ := hord
  have hall : ∀ t ∈ tables, t ∈ K.2.2 := by
    by_contra hcon
    push_neg at hcon
    obtain ⟨t0, ht0, ht0n⟩ := hcon
    have hSne : tables.filter (fun t => t ∉ K.2.2) ≠ [] := by
      intro hnil
      have h2 := List.filter_eq_nil_iff.mp hnil t0 ht0
      simp [ht0n] at h2
    obtain ⟨m, hmS, hmin⟩ := exists_rank_min rank _ hSne
    have hmT := (List.mem_filter.mp hmS).1
    have hmO : m ∉ K.2.2 := by
      have h2 := (List.mem_filter.mp hmS).2
      simpa using h2
    have hdm : K.1 m ≠ [] := by
      intro hz
      rcases hD m hmT hz with h | h
      · rw [hdrain] at h
        cases h
      · exact hmO h
    rw [hB m] at hdm
    have hex : ∃ p ∈ deps0 tables fks m, p ∉ K.2.2 := by
      by_contra hno
      push_neg at hno
      refine hdm (List.filter_eq_nil_iff.mpr ?_)
      intro a ha
      simp [hno a ha]
    obtain ⟨p, hpD, hpO⟩ := hex
    have hpT : p ∈ tables := deps0_subset hpD
    have hpS : p ∈ tables.filter (fun t => t ∉ K.2.2) :=
      List.mem_filter.mpr ⟨hpT, by simpa using hpO⟩
    obtain ⟨fk2, hfk2, hfkt, hfkr, h1t, h2t⟩ := mem_deps0.mp hpD
    have hlt : rank p < rank m := by
      have h3 := hrank fk2 hfk2 h1t h2t
      rw [hfkt, hfkr] at h3
      exact h3
    have hge := hmin p hpS
    omega
  have hrem : tables.filter (fun t => t ∉ K.2.2) = [] := by
    refine List.filter_eq_nil_iff.mpr ?_
    intro a ha
    simp [hall a ha]
  intro l₁ l₂ heq
  have hdef : topo_sort_tables tables fks =
      K.2.2 ++ sortStr (tables.filter (fun t => t ∉ K.2.2)) := by
    rw [hK]
    rfl
  rw [hdef, hrem] at heq
  have heq2 : K.2.2 = l₁ ++ fk.table :: l₂ := by
    rw [show sortStr ([] : List String) = [] from rfl, List.append_nil] at heq
    exact heq
  exact hC fk.table l₁ l₂ heq2 fk.ref_table
    (mem_deps0.mpr ⟨fk, hfk, rfl, rfl, hft, hfr⟩)

theorem topo_sort_parents_first_witness : "parent" ∈ (["parent"] : List String) :=
  (topo_sort_parents_first ["child", "grandchild", "parent"]
    [⟨"child", "parent_id", "parent", "id"⟩, ⟨"grandchild", "child_id", "child", "id"⟩]
    (fun t => if t = "parent" then 0 else if t = "child" then 1 else 2)
    (by decide)).1
    ⟨"child", "parent_id", "parent", "id"⟩ (by decide) (by decide) (by decide)
    ["parent"] ["grandchild"] (by decide)

theorem perm_of_nodup_of_mem_iff (l₁ l₂ : List String) (h₁ : l₁.Nodup) (h₂ : l₂.Nodup)
    (h : ∀ x, x ∈ l₁ ↔ x ∈ l₂) : l₁.Perm l₂ := by
  rw [List.perm_iff_count]
  intro a
  by_cases ha : a ∈ l₁
  · rw [List.count_eq_one_of_mem h₁ ha, List.count_eq_one_of_mem h₂ ((h a).mp ha)]
  · rw [List.count_eq_zero_of_not_mem ha,
      List.count_eq_zero_of_not_mem (fun hc => ha ((h a).mpr hc))]

/-- C8: for every table list with distinct names and every foreign-key edge
list — self-referencing and cyclic edges included — `topo_sort_tables`
terminates (it is a total function whose queue provably drains within its
fuel) and returns a permutation of the input: no table is dropped or
duplicated. -/
theorem topo_sort_tables_perm (tables : List String) (fks : List ForeignKey)
    (hnd : tables.Nodup) : (topo_sort_tables tables fks).Perm tables := by
  set K := kahnLoop (rdeps0 tables fks) (2 * tables.length + 1) (deps0 tables fks)
    (sortStr (tables.filter (fun t => (deps0 tables fks t).isEmpty))) [] with hK
  have hq0nd : (sortStr (tables.filter (fun t => (deps0 tables fks t).isEmpty))).Nodup :=
    (sortStr_perm _).nodup_iff.mpr (hnd.filter _)
  have hinit : KNod tables (sortStr (tables.filter (fun t => (deps0 tables fks t).isEmpty)))
      [] := by
    refine ⟨List.nodup_nil, hq0nd, ?_, ?_, ?_⟩
    · intro x _ hx
      exact (List.not_mem_nil x) hx
    · intro x hx
      exact (List.mem_filter.mp (mem_sortStr.mp hx)).1
    · intro x hx
      exact absurd hx (List.not_mem_nil x)
  have hfin : KNod tables K.2.1 K.2.2 := by
    rw [hK]
    exact kahnLoop_nodup tables fks (2 * tables.length + 1) (deps0 tables fks)
      (sortStr (tables.filter (fun t => (deps0 tables fks t).isEmpty))) [] hinit
  obtain ⟨hOutNd, _, _, _, hOutT⟩ := hfin
  have hdef : topo_sort_tables tables fks =
      K.2.2 ++ sortStr (tables.filter (fun t => t ∉ K.2.2)) := by
    rw [hK]
    rfl
  rw [hdef]
  have h1 : (sortStr (tables.filter (fun t => t ∉ K.2.2))).Perm
      (tables.filter (fun x => !decide (x ∈ K.2.2))) := by
    have he : tables.filter (fun t => t ∉ K.2.2) =
        tables.filter (fun x => !decide (x ∈ K.2.2)) :=
      List.filter_congr (fun x _ => by simp [decide_not])
    rw [← he]
    exact sortStr_perm _
  have h2 : K.2.2.Perm (tables.filter (fun t => decide (t ∈ K.2.2))) := by
    refine perm_of_nodup_of_mem_iff _ _ hOutNd (hnd.filter _) ?_
    intro x
    constructor
    · intro hx
      exact List.mem_filter.mpr ⟨hOutT x hx, by simpa using hx⟩
    · intro hx
      have := (List.mem_filter.mp hx).2
      simpa using this
  have h3 := List.filter_append_perm (fun t => decide (t ∈ K.2.2)) tables
  exact ((h2.append h1).trans h3)

theorem topo_sort_tables_perm_witness :
    (topo_sort_tables ["b", "a"] cycFks).Perm ["b", "a"] :=
  topo_sort_tables_perm ["b", "a"] cycFks (by decide)

/-! ## C2: the booking_room assembler hangs instead of raising a capacity error -/

/-- A three-element key pool. -/
def poolThree : List Value := [.vint 1, .vint 2, .vint 3]

/-- The nine possible (booking, room) pairs over `poolThree`. -/
def pairsNine : List (Value × Value) :=
  [(.vint 1, .vint 1), (.vint 1, .vint 2), (.vint 1, .vint 3),
   (.vint 2, .vint 1), (.vint 2, .vint 2), (.vint 2, .vint 3),
   (.vint 3, .vint 1), (.vint 3, .vint 2), (.vint 3, .vint 3)]

theorem getD_mem_poolThree (n : Nat) : poolThree.getD (n % poolThree.length) Value.vnull ∈
    poolThree := by
  have hlt : n % poolThree.length < poolThree.length := Nat.mod_lt n (by decide)
  rw [List.getD_eq_getElem poolThree Value.vnull hlt]
  exact List.getElem_mem hlt

theorem pair_mem_pairsNine {p : Value × Value} (h1 : p.1 ∈ poolThree) (h2 : p.2 ∈ poolThree) :
    p ∈ pairsNine := by
  rcases p with ⟨a, b⟩
  simp only [poolThree, List.mem_cons, List.not_mem_nil, or_false] at h1 h2
  rcases h1 with rfl | rfl | rfl <;> rcases h2 with rfl | rfl | rfl <;> decide

theorem bookingRoomInner_inv (g : Nat → Nat) (b : Value) (hb : b ∈ poolThree) :
    ∀ (cnt k : Nat) (seen rows : List (Value × Value)),
      seen.Nodup → (∀ p ∈ seen, p.1 ∈ poolThree ∧ p.2 ∈ poolThree) →
      rows.length = seen.length →
      (bookingRoomInner g poolThree b 10 cnt k seen rows).2.1.Nodup ∧
      (∀ p ∈ (bookingRoomInner g poolThree b 10 cnt k seen rows).2.1,
        p.1 ∈ poolThree ∧ p.2 ∈ poolThree) ∧
      (bookingRoomInner g poolThree b 10 cnt k seen rows).2.2.length =
        (bookingRoomInner g poolThree b 10 cnt k seen rows).2.1.length := by
  intro cnt
  induction cnt with
  | zero => intro k seen rows hnd hsub hlen; exact ⟨hnd, hsub, hlen⟩
  | succ c ih =>
    intro k seen rows hnd hsub hlen
    simp only [bookingRoomInner]
    split
    · exact ih (k + 1) seen rows hnd hsub hlen
    case isFalse hnm =>
      have hrm : poolThree.getD (g k % poolThree.length) Value.vnull ∈ poolThree :=
        getD_mem_poolThree (g k)
      have hnd2 : (seen ++ [(b, poolThree.getD (g k % poolThree.length) Value.vnull)]).Nodup := by
        rw [List.nodup_append]
        refine ⟨hnd, List.nodup_singleton _, ?_⟩
        intro a ha hb2
        rw [List.mem_singleton] at hb2
        exact hnm (hb2 ▸ ha)
      have hsub2 : ∀ p ∈ seen ++ [(b, poolThree.getD (g k % poolThree.length) Value.vnull)],
          p.1 ∈ poolThree ∧ p.2 ∈ poolThree := by
        intro p hp
        rcases List.mem_append.mp hp with h | h
        · exact hsub p h
        · rw [List.mem_singleton] at h
          subst h
          exact ⟨hb, hrm⟩
      have hlen2 : (rows ++ [(b, poolThree.getD (g k % poolThree.length) Value.vnull)]).length =
          (seen ++ [(b, poolThree.getD (g k % poolThree.length) Value.vnull)]).length := by
        simp [hlen]
      split
      · exact ⟨hnd2, hsub2, hlen2⟩
      · exact ih (k + 1) _ _ hnd2 hsub2 hlen2

theorem bookingRoomLoop_diverges (g : Nat → Nat) :
    ∀ (fuel i k : Nat) (seen rows : List (Value × Value)),
      seen.Nodup → (∀ p ∈ seen, p.1 ∈ poolThree ∧ p.2 ∈ poolThree) →
      rows.length = seen.length →
      bookingRoomLoop g poolThree poolThree 10 fuel i k seen rows = none := by
  intro fuel
  induction fuel with
  | zero => intros; rfl
  | succ f ih =>
    intro i k seen rows hnd hsub hlen
    have hcap : seen.length ≤ 9 := by
      have hsp : seen.Subperm pairsNine :=
        List.subperm_of_subset hnd (fun p hp => pair_mem_pairsNine (hsub p hp).1 (hsub p hp).2)
      exact hsp.length_le
    have hb : poolThree.getD (i % poolThree.length) Value.vnull ∈ poolThree :=
      getD_mem_poolThree i
    obtain ⟨hnd2, hsub2, hlen2⟩ := bookingRoomInner_inv g _ hb (1 + g k % 3) (k + 1) seen rows
      hnd hsub hlen
    simp only [bookingRoomLoop]
    rw [if_neg (by omega : ¬ rows.length ≥ 10)]
    exact ih (i + 1) _ _ _ hnd2 hsub2 hlen2

/-- C2 (failing evaluation): with booking and room pools of size 3 and a
requested row count of 10 > 9 = |A|x|B|, `generate_booking_room_csv` raises
nothing — its pairing loop makes no further progress for any randomness and
any number of iterations (the fuel-indexed loop never returns) — while
`generate_booking_discount_csv` raises its capacity error up front on the
same shape of input. -/
theorem booking_room_hangs_booking_discount_raises :
    (∀ (g : Nat → Nat) (fuel : Nat),
      generate_booking_room_pairs g id poolThree poolThree 10 fuel = .ok none) ∧
    (∀ (g : Nat → Nat) (fuel : Nat),
      generate_booking_discount_pairs g id poolThree poolThree 10 fuel =
        .error "Requested more booking_discount rows than unique pairs exist.") := by
  constructor
  · intro g fuel
    show Except.ok (bookingRoomLoop g poolThree poolThree 10 fuel 0 0 [] []) = .ok none
    rw [bookingRoomLoop_diverges g fuel 0 0 [] [] List.nodup_nil
      (fun p hp => absurd hp (List.not_mem_nil p)) rfl]
  · intro g fuel
    rfl

/-! ## C9: room_night silently emits fewer rows than requested -/

/-- C9: with two rooms and a requested count of 5, each room contributes
`per_room = max(1, 5 // 2) = 2` sampled nights (capped at the 1095-day
window), so only 4 rows are produced; the assembler returns them with no
error of any kind.  This holds for every valid sampler, i.e. whenever
`random.sample(range(m), k)` is modelled by any function returning `k`
distinct in-range offsets. -/
theorem room_night_silent_shortfall (sample : Nat → Nat → Nat → List Nat)
    (hs : ∀ idx m cnt, cnt ≤ m →
      (sample idx m cnt).length = cnt ∧ (sample idx m cnt).Nodup ∧
      ∀ o ∈ sample idx m cnt, o < m) :
    ∃ rows, generate_room_night_pairs sample id [Value.vint 1, Value.vint 2] 5 = .ok rows ∧
      rows.length = 4 ∧ 4 < 5 := by
  obtain ⟨hl0, hn0, _⟩ := hs 0 room_night_total_days 2 (by norm_num [room_night_total_days])
  obtain ⟨hl1, hn1, _⟩ := hs 1 room_night_total_days 2 (by norm_num [room_night_total_days])
  obtain ⟨a, b, hab⟩ := List.length_eq_two.mp hl0
  obtain ⟨c, d, hcd⟩ := List.length_eq_two.mp hl1
  have hane : ¬ b = a := by
    rw [hab] at hn0
    have := (List.nodup_cons.mp hn0).1
    simp only [List.mem_singleton] at this
    exact fun he => this he.symm
  have hcne : ¬ d = c := by
    rw [hcd] at hn1
    have := (List.nodup_cons.mp hn1).1
    simp only [List.mem_singleton] at this
    exact fun he => this he.symm
  have h1 : roomNightInner (Value.vint 1) 5 [a, b] [] [] =
      ([(Value.vint 1, a), (Value.vint 1, b)], [(Value.vint 1, a), (Value.vint 1, b)]) := by
    simp [roomNightInner, hane]
  have h2 : roomNightInner (Value.vint 2) 5 [c, d]
      [(Value.vint 1, a), (Value.vint 1, b)] [(Value.vint 1, a), (Value.vint 1, b)] =
      ([(Value.vint 1, a), (Value.vint 1, b), (Value.vint 2, c), (Value.vint 2, d)],
       [(Value.vint 1, a), (Value.vint 1, b), (Value.vint 2, c), (Value.vint 2, d)]) := by
    simp [roomNightInner, hcne]
  have hcnt : min (max 1 (5 / ([Value.vint 1, Value.vint 2] : List Value).length))
      room_night_total_days = 2 := by
    norm_num [room_night_total_days]
  have hloop : roomNightLoop sample (max 1 (5 / ([Value.vint 1, Value.vint 2] :
      List Value).length)) 5 [Value.vint 1, Value.vint 2] 0 [] [] =
      [(Value.vint 1, a), (Value.vint 1, b), (Value.vint 2, c), (Value.vint 2, d)] := by
    simp only [roomNightLoop, hcnt, hab, hcd, h1, h2]
    norm_num
  refine ⟨_, rfl, ?_, by omega⟩
  show ((roomNightLoop sample (max 1 (5 / ([Value.vint 1, Value.vint 2] :
      List Value).length)) 5 (id [Value.vint 1, Value.vint 2]) 0 [] []).take 5).length = 4
  rw [show (id [Value.vint 1, Value.vint 2]) = [Value.vint 1, Value.vint 2] from rfl, hloop]
  rfl

theorem room_night_silent_shortfall_witness :
    ∃ rows, generate_room_night_pairs (fun _ _ cnt => List.range cnt) id
        [Value.vint 1, Value.vint 2] 5 = .ok rows ∧ rows.length = 4 ∧ 4 < 5 :=
  room_night_silent_shortfall (fun _ _ cnt => List.range cnt)
    (fun _ m cnt hcm =>
      ⟨List.length_range cnt, List.nodup_range cnt,
        fun o ho => lt_of_lt_of_le (List.mem_range.mp ho) hcm⟩)

/-! ## C6: stay status/timestamp invariants -/

theorem col_lc_get_lower {cols : List ColumnInfo} {nm cn : String}
    (h : col_lc_get cols nm = some cn) : lowerStr cn = nm := by
  unfold col_lc_get at h
  cases hf : cols.find? (fun c => lowerStr c.column = nm) with
  | none => rw [hf] at h; exact Option.noConfusion h
  | some c =>
    rw [hf] at h
    have hp := List.find?_some hf
    simp only [decide_eq_true_eq] at hp
    have hcn : c.column = cn := by simpa using h
    rw [← hcn]
    exact hp

theorem stay_status_col_lower {cols : List ColumnInfo} {cn : String}
    (h : stay_status_col cols = some cn) :
    lowerStr cn = "stay_status" ∨ lowerStr cn = "status" := by
  unfold stay_status_col at h
  cases hs : col_lc_get cols "stay_status" with
  | some sc =>
    rw [hs] at h
    cases h
    exact Or.inl (col_lc_get_lower hs)
  | none =>
    rw [hs] at h
    exact Or.inr (col_lc_get_lower h)

theorem staySetA_eq (cfg : StayCfg) (r : List (String × Value)) (w : Value) (aciN : String)
    (ha : cfg.aci_col = some aciN) : staySetA cfg r w = aset r aciN w := by
  unfold staySetA
  rw [ha]

theorem staySetO_eq (cfg : StayCfg) (r : List (String × Value)) (w : Value) (acoN : String)
    (ho : cfg.aco_col = some acoN) : staySetO cfg r w = aset r acoN w := by
  unfold staySetO
  rw [ho]

theorem stayBranch_shape (cfg : StayCfg) (g : Nat → Nat) (row1 : List (String × Value))
    (s : String) (k1 : Nat) (aciN acoN : String) (ha : cfg.aci_col = some aciN)
    (ho : cfg.aco_col = some acoN) :
    ∃ wa wo, (stayBranch cfg g row1 s k1).1 = aset (aset row1 aciN wa) acoN wo ∧
      (strContains s "CANCEL" = true → wa = Value.vnull ∧ wo = Value.vnull) ∧
      (strContains s "OUT" = false → strContains s "IN" = false →
        wa = Value.vnull ∧ wo = Value.vnull) := by
  unfold stayBranch
  by_cases h1 : strContains s "CANCEL" = true
  · rw [if_pos h1]
    refine ⟨Value.vnull, Value.vnull, ?_, fun _ => ⟨rfl, rfl⟩, fun _ _ => ⟨rfl, rfl⟩⟩
    show staySetO cfg (staySetA cfg row1 Value.vnull) Value.vnull =
      aset (aset row1 aciN Value.vnull) acoN Value.vnull
    rw [staySetO_eq cfg _ _ acoN ho, staySetA_eq cfg _ _ aciN ha]
  · rw [if_neg h1]
    by_cases h2 : strContains s "OUT" = true
    · rw [if_pos h2]
      refine ⟨Value.vdate (Int.ofNat (g k1)),
        Value.vdate (Int.ofNat (g k1) + 1 + Int.ofNat (g (k1 + 1) % 10)),
        ?_, fun hc => absurd hc h1, fun hc _ => absurd h2 (by rw [hc]; simp)⟩
      show staySetO cfg (staySetA cfg row1 (Value.vdate (Int.ofNat (g k1))))
          (Value.vdate (Int.ofNat (g k1) + 1 + Int.ofNat (g (k1 + 1) % 10))) =
        aset (aset row1 aciN (Value.vdate (Int.ofNat (g k1))))
          acoN (Value.vdate (Int.ofNat (g k1) + 1 + Int.ofNat (g (k1 + 1) % 10)))
      rw [staySetO_eq cfg _ _ acoN ho, staySetA_eq cfg _ _ aciN ha]
    · rw [if_neg h2]
      by_cases h3 : (strContains s "IN" && !strContains s "OUT") = true
      · rw [if_pos h3]
        refine ⟨Value.vdate (Int.ofNat (g k1)), Value.vnull,
          ?_, fun hc => absurd hc h1, fun _ hin => ?_⟩
        · show staySetO cfg (staySetA cfg row1 (Value.vdate (Int.ofNat (g k1)))) Value.vnull =
            aset (aset row1 aciN (Value.vdate (Int.ofNat (g k1)))) acoN Value.vnull
          rw [staySetO_eq cfg _ _ acoN ho, staySetA_eq cfg _ _ aciN ha]
        · rw [hin] at h3
          simp at h3
      · rw [if_neg h3]
        refine ⟨Value.vnull, Value.vnull, ?_, fun _ => ⟨rfl, rfl⟩, fun _ _ => ⟨rfl, rfl⟩⟩
        show staySetO cfg (staySetA cfg row1 Value.vnull) Value.vnull =
          aset (aset row1 aciN Value.vnull) acoN Value.vnull
        rw [staySetO_eq cfg _ _ acoN ho, staySetA_eq cfg _ _ aciN ha]

theorem stayRepair_eq_dates (cfg : StayCfg) (row2 : List (String × Value))
    (aciN acoN : String) (ci co : Int)
    (ha : cfg.aci_col = some aciN) (ho : cfg.aco_col = some acoN)
    (h1 : alookup row2 aciN = some (Value.vdate ci))
    (h2 : alookup row2 acoN = some (Value.vdate co)) :
    stayRepair cfg row2 = if co < ci then aset row2 acoN (Value.vdate (ci + 1)) else row2 := by
  unfold stayRepair
  simp only [ha, ho]
  rw [h1, h2]

theorem stayRepair_eq_self (cfg : StayCfg) (row2 : List (String × Value))
    (aciN acoN : String)
    (ha : cfg.aci_col = some aciN) (ho : cfg.aco_col = some acoN)
    (hnd : ∀ ci co, ¬(alookup row2 aciN = some (Value.vdate ci) ∧
      alookup row2 acoN = some (Value.vdate co))) :
    stayRepair cfg row2 = row2 := by
  unfold stayRepair
  simp only [ha, ho]
  rcases h1 : alookup row2 aciN with _ | v1
  · rfl
  · rcases v1 with _ | n | s | b | d
    · rfl
    · rfl
    · rfl
    · rfl
    · rcases h2 : alookup row2 acoN with _ | v2
      · rfl
      · rcases v2 with _ | n2 | s2 | b2 | d2
        · rfl
        · rfl
        · rfl
        · rfl
        · exact absurd ⟨h1, h2⟩ (hnd d d2)

theorem stayRepair_pres (cfg : StayCfg) (row2 : List (String × Value))
    (aciN acoN key : String)
    (ha : cfg.aci_col = some aciN) (ho : cfg.aco_col = some acoN) (hk : key ≠ acoN) :
    alookup (stayRepair cfg row2) key = alookup row2 key := by
  by_cases hd : ∃ ci co, alookup row2 aciN = some (Value.vdate ci) ∧
      alookup row2 acoN = some (Value.vdate co)
  · obtain ⟨ci, co, h1, h2⟩ := hd
    rw [stayRepair_eq_dates cfg row2 aciN acoN ci co ha ho h1 h2]
    by_cases hlt : co < ci
    · rw [if_pos hlt, alookup_aset_other _ _ _ _ hk]
    · rw [if_neg hlt]
  · rw [stayRepair_eq_self cfg row2 aciN acoN ha ho (fun ci co hc => hd ⟨ci, co, hc⟩)]

theorem stayRepair_ordered (cfg : StayCfg) (row2 : List (String × Value))
    (aciN acoN : String)
    (ha : cfg.aci_col = some aciN) (ho : cfg.aco_col = some acoN) (hne : aciN ≠ acoN)
    (x y : Int) (hx : alookup (stayRepair cfg row2) aciN = some (Value.vdate x))
    (hy : alookup (stayRepair cfg row2) acoN = some (Value.vdate y)) : x ≤ y := by
  by_cases hd : ∃ ci co, alookup row2 aciN = some (Value.vdate ci) ∧
      alookup row2 acoN = some (Value.vdate co)
  · obtain ⟨ci, co, h1, h2⟩ := hd
    rw [stayRepair_eq_dates cfg row2 aciN acoN ci co ha ho h1 h2] at hx hy
    by_cases hlt : co < ci
    · rw [if_pos hlt, alookup_aset_other _ _ _ _ hne, h1] at hx
      rw [if_pos hlt, alookup_aset_self] at hy
      simp only [Option.some.injEq, Value.vdate.injEq] at hx hy
      omega
    · rw [if_neg hlt, h1] at hx
      rw [if_neg hlt, h2] at hy
      simp only [Option.some.injEq, Value.vdate.injEq] at hx hy
      omega
  · rw [stayRepair_eq_self cfg row2 aciN acoN ha ho (fun ci co hc => hd ⟨ci, co, hc⟩)] at hx hy
    exact absurd ⟨x, y, hx, hy⟩ hd

theorem processColStay_pres (g : Nat → Nat) (tok : Nat → String) (table_lc : String)
    (enums : List (String × List String))
    (fk_map : List ((String × String) × (String × String)))
    (ref_ids : List (String × List Value)) (i : Nat) (c : ColumnInfo)
    (row : List (String × Value)) (st : GenState)
    (rowm : List (String × Value)) (stm : GenState) (key : String)
    (h : processColStay g tok table_lc enums fk_map ref_ids i c row st = .ok (rowm, stm))
    (hk : (alookup row key).isSome) :
    alookup rowm key = alookup row key := by
  by_cases hc : (alookup row c.column).isSome = true
  · unfold processColStay at h
    rw [if_pos hc] at h
    cases h
    rfl
  · have hkc : key ≠ c.column := by
      intro he
      rw [he] at hk
      exact hc hk
    simp only [processColStay] at h
    rw [if_neg hc] at h
    split at h
    · exact Except.noConfusion h
    · split at h
      · exact Except.noConfusion h
      · injection h with h1
        injection h1 with hrw hst
        rw [← hrw, alookup_aset_other _ _ _ _ hkc]
        rcases hfk : plookup fk_map (table_lc, c.column) with _ | pr
        · simp only [hfk]
        · simp only [hfk]
          by_cases hcand : ((alookup ref_ids pr.1).getD []).isEmpty = true
          · simp only [hcand, Bool.not_true, Bool.false_eq_true, if_false]
            rw [alookup_aset_other _ _ _ _ hkc]
          · simp only [hcand, Bool.not_false, if_true]
            rw [alookup_aset_other _ _ _ _ hkc]

theorem processColsStay_pres (g : Nat → Nat) (tok : Nat → String) (table_lc : String)
    (enums : List (String × List String))
    (fk_map : List ((String × String) × (String × String)))
    (ref_ids : List (String × List Value)) (i : Nat) :
    ∀ (cols : List ColumnInfo) (row : List (String × Value)) (st : GenState)
      (row2 : List (String × Value)) (st2 : GenState) (key : String),
      processColsStay g tok table_lc enums fk_map ref_ids i cols row st = .ok (row2, st2) →
      (alookup row key).isSome →
      alookup row2 key = alookup row key := by
  intro cols
  induction cols with
  | nil =>
    intro row st row2 st2 key h hk
    unfold processColsStay at h
    cases h
    rfl
  | cons c rest ih =>
    intro row st row2 st2 key h hk
    unfold processColsStay at h
    cases hp : processColStay g tok table_lc enums fk_map ref_ids i c row st with
    | error e => rw [hp] at h; exact Except.noConfusion h
    | ok p =>
      obtain ⟨rowm, stm⟩ := p
      rw [hp] at h
      have hpres := processColStay_pres g tok table_lc enums fk_map ref_ids i c row st
        rowm stm key hp hk
      have hsome : (alookup rowm key).isSome := by
        rw [hpres]
        exact hk
      rw [ih rowm stm row2 st2 key h hsome, hpres]
theorem stayWithStatus_stat (cfg : StayCfg) (g : Nat → Nat) (row0 : List (String × Value))
    (k0 : Nat) (lbl : String)
    (hlbl : (stayWithStatus cfg g row0 k0).2.1 = some lbl)
    (scN : String) (hscN : cfg.status_col = some scN) :
    alookup (stayWithStatus cfg g row0 k0).1 scN = some (Value.vstr lbl) := by
  unfold stayWithStatus at hlbl ⊢
  simp only [hscN] at hlbl ⊢
  cases hch : cfg.stay_status_choices.isEmpty with
  | true => simp [hch] at hlbl
  | false =>
    simp only [hch, Bool.not_false, if_true] at hlbl ⊢
    rw [alookup_aset_self]
    simp only [Option.some.injEq] at hlbl
    rw [hlbl]

theorem stayRowCore_spec (g : Nat → Nat) (tok : Nat → String) (cfg : StayCfg)
    (enums : List (String × List String))
    (fk_map : List ((String × String) × (String × String)))
    (ref_ids : List (String × List Value))
    (cols : List ColumnInfo) (i : Nat) (st : GenState)
    (row1 : List (String × Value)) (scenario : Option String) (k1 : Nat)
    (row : List (String × Value)) (st2 : GenState)
    (aciN acoN : String)
    (ha : cfg.aci_col = some aciN) (ho : cfg.aco_col = some acoN) (hne : aciN ≠ acoN)
    (hsc : ∀ scN, cfg.status_col = some scN → scN ≠ aciN ∧ scN ≠ acoN)
    (hstat : ∀ lbl, scenario = some lbl → ∀ scN, cfg.status_col = some scN →
      alookup row1 scN = some (Value.vstr lbl))
    (h : stayRowCore g tok cfg enums fk_map ref_ids cols i st row1 scenario k1 =
      .ok (row, st2)) :
    (∀ scN lbl, cfg.status_col = some scN →
      alookup row scN = some (Value.vstr lbl) →
      strContains (upperStr lbl) "CANCEL" = true →
      alookup row aciN = some Value.vnull ∧ alookup row acoN = some Value.vnull) ∧
    (∀ x y, alookup row aciN = some (Value.vdate x) →
      alookup row acoN = some (Value.vdate y) → x ≤ y) := by
  simp only [stayRowCore] at h
  cases hps : processColsStay g tok cfg.table_lc enums fk_map ref_ids i cols
      (stayBranch cfg g row1 (upperStr (scenario.getD "")) k1).1
      { st with k := (stayBranch cfg g row1 (upperStr (scenario.getD "")) k1).2 } with
  | error e => rw [hps] at h; exact Except.noConfusion h
  | ok p =>
    obtain ⟨row2, st2x⟩ := p
    rw [hps] at h
    injection h with h1
    injection h1 with hrw hst
    subst hrw
    refine ⟨?_, fun x y hx hy => stayRepair_ordered cfg row2 aciN acoN ha ho hne x y hx hy⟩
    intro scN lbl hscN hlk hcanc
    obtain ⟨hsa, hso⟩ := hsc scN hscN
    obtain ⟨wa, wo, hsh, hcanb, hfall⟩ := stayBranch_shape cfg g row1
      (upperStr (scenario.getD "")) k1 aciN acoN ha ho
    have hia : alookup (stayBranch cfg g row1 (upperStr (scenario.getD "")) k1).1 aciN
        = some wa := by
      rw [hsh, alookup_aset_other _ _ _ _ hne, alookup_aset_self]
    have hio : alookup (stayBranch cfg g row1 (upperStr (scenario.getD "")) k1).1 acoN
        = some wo := by
      rw [hsh, alookup_aset_self]
    have h2a : alookup row2 aciN = some wa := by
      rw [processColsStay_pres g tok cfg.table_lc enums fk_map ref_ids i cols _ _ row2 st2x
        aciN hps (by rw [hia]; rfl)]
      exact hia
    have h2o : alookup row2 acoN = some wo := by
      rw [processColsStay_pres g tok cfg.table_lc enums fk_map ref_ids i cols _ _ row2 st2x
        acoN hps (by rw [hio]; rfl)]
      exact hio
    have hnulls : wa = Value.vnull ∧ wo = Value.vnull := by
      rcases hsce : scenario with _ | lbl0
      · subst hsce
        exact hfall (by decide) (by decide)
      · subst hsce
        have hr1 : alookup row1 scN = some (Value.vstr lbl0) := hstat lbl0 rfl scN hscN
        have hbr : alookup (stayBranch cfg g row1
            (upperStr ((some lbl0).getD "")) k1).1 scN = some (Value.vstr lbl0) := by
          rw [hsh, alookup_aset_other _ _ _ _ hso, alookup_aset_other _ _ _ _ hsa]
          exact hr1
        have h2s : alookup row2 scN = some (Value.vstr lbl0) := by
          rw [processColsStay_pres g tok cfg.table_lc enums fk_map ref_ids i cols _ _ row2
            st2x scN hps (by rw [hbr]; rfl)]
          exact hbr
        have hrs : alookup (stayRepair cfg row2) scN = some (Value.vstr lbl0) := by
          rw [stayRepair_pres cfg row2 aciN acoN scN ha ho hso]
          exact h2s
        rw [hrs] at hlk
        have hl : lbl0 = lbl := Value.vstr.inj (Option.some.inj hlk)
        rw [← hl] at hcanc
        exact hcanb hcanc
    obtain ⟨hwa, hwo⟩ := hnulls
    subst hwa
    subst hwo
    have hrep : stayRepair cfg row2 = row2 :=
      stayRepair_eq_self cfg row2 aciN acoN ha ho
        (fun ci co hc => by
          rw [h2a] at hc
          exact Value.noConfusion (Option.some.inj hc.1))
    rw [hrep]
    exact ⟨h2a, h2o⟩

theorem stayRow_spec (g : Nat → Nat) (tok : Nat → String) (cfg : StayCfg)
    (enums : List (String × List String))
    (fk_map : List ((String × String) × (String × String)))
    (ref_ids : List (String × List Value))
    (cols : List ColumnInfo) (i : Nat) (st : GenState)
    (row : List (String × Value)) (st2 : GenState)
    (aciN acoN : String)
    (ha : cfg.aci_col = some aciN) (ho : cfg.aco_col = some acoN) (hne : aciN ≠ acoN)
    (hsc : ∀ scN, cfg.status_col = some scN → scN ≠ aciN ∧ scN ≠ acoN)
    (h : stayRow g tok cfg enums fk_map ref_ids cols i st = .ok (row, st2)) :
    (∀ scN lbl, cfg.status_col = some scN →
      alookup row scN = some (Value.vstr lbl) →
      strContains (upperStr lbl) "CANCEL" = true →
      alookup row aciN = some Value.vnull ∧ alookup row acoN = some Value.vnull) ∧
    (∀ x y, alookup row aciN = some (Value.vdate x) →
      alookup row acoN = some (Value.vdate y) → x ≤ y) := by
  have hh : stayRowCore g tok cfg enums fk_map ref_ids cols i st
      (stayWithStatus cfg g (stayWithBooking cfg g i st).1 (stayWithBooking cfg g i st).2).1
      (stayWithStatus cfg g (stayWithBooking cfg g i st).1 (stayWithBooking cfg g i st).2).2.1
      (stayWithStatus cfg g (stayWithBooking cfg g i st).1 (stayWithBooking cfg g i st).2).2.2
      = .ok (row, st2) := h
  exact stayRowCore_spec g tok cfg enums fk_map ref_ids cols i st _ _ _ row st2 aciN acoN
    ha ho hne hsc
    (fun lbl hlbl scN hscN => stayWithStatus_stat cfg g _ _ lbl hlbl scN hscN)
    hh

theorem stayRowsLoop_all (g : Nat → Nat) (tok : Nat → String) (cfg : StayCfg)
    (enums : List (String × List String))
    (fk_map : List ((String × String) × (String × String)))
    (ref_ids : List (String × List Value))
    (cols : List ColumnInfo)
    (P : List (String × Value) → Prop)
    (hrow : ∀ i st rowx st2,
      stayRow g tok cfg enums fk_map ref_ids cols i st = .ok (rowx, st2) → P rowx) :
    ∀ (n i : Nat) (st : GenState) (acc rows : List (List (String × Value))),
      (∀ r ∈ acc, P r) →
      stayRowsLoop g tok cfg enums fk_map ref_ids cols n i st acc = .ok rows →
      ∀ r ∈ rows, P r := by
  intro n
  induction n with
  | zero =>
    intro i st acc rows hacc h r hr
    unfold stayRowsLoop at h
    injection h with h1
    rw [← h1] at hr
    exact hacc r hr
  | succ m ih =>
    intro i st acc rows hacc h r hr
    unfold stayRowsLoop at h
    cases hsr : stayRow g tok cfg enums fk_map ref_ids cols i st with
    | error e => rw [hsr] at h; exact Except.noConfusion h
    | ok p =>
      obtain ⟨rowi, st2⟩ := p
      rw [hsr] at h
      refine ih (i + 1) st2 (acc ++ [rowi]) rows ?_ h r hr
      intro r2 hr2
      rcases List.mem_append.mp hr2 with h1 | h1
      · exact hacc r2 h1
      · have he : r2 = rowi := List.mem_singleton.mp h1
        rw [he]
        exact hrow i st rowi st2 hsr

/-- C6: every row emitted by the stay assembler satisfies the status and
temporal invariants, for every oracle instantiation: whenever the row's
status value (in the column the assembler resolved as the status column)
contains "CANCEL" after upper-casing, both actual timestamps are null; and
whenever both actual timestamps are non-null dates, checkout is not before
checkin — the scenario branch writes nulls for cancelled stays before the
generic column loop can touch the pre-assigned keys, and the post-assembly
repair forces checkout = checkin + 1 day on any inverted pair. -/
theorem stay_cancel_null_and_checkout_order (g : Nat → Nat) (tok : Nat → String)
    (shuffle : List Value → List Value) (table : String) (cols : List ColumnInfo)
    (fk_map : List ((String × String) × (String × String)))
    (ref_ids : List (String × List Value)) (n_rows : Nat)
    (enums : List (String × List String)) (unique_cols : List (String × List String))
    (reg0 : List ((String × String) × List String)) (j0 : Nat)
    (rows : List (List (String × Value))) (aciN acoN : String)
    (haci : col_lc_get cols "actual_checkin_at" = some aciN)
    (haco : col_lc_get cols "actual_checkout_at" = some acoN)
    (hok : generate_stay_rows g tok shuffle table cols fk_map ref_ids n_rows enums
      unique_cols reg0 j0 = .ok rows) :
    ∀ row ∈ rows,
      (∀ scN lbl, stay_status_col cols = some scN →
        alookup row scN = some (Value.vstr lbl) →
        strContains (upperStr lbl) "CANCEL" = true →
        alookup row aciN = some Value.vnull ∧ alookup row acoN = some Value.vnull) ∧
      (∀ x y, alookup row aciN = some (Value.vdate x) →
        alookup row acoN = some (Value.vdate y) → x ≤ y) := by
  have hne : aciN ≠ acoN := by
    intro he
    have h1 := col_lc_get_lower haci
    have h2 := col_lc_get_lower haco
    rw [he, h2] at h1
    exact absurd h1 (by decide)
  have hsc : ∀ scN, stay_status_col cols = some scN → scN ≠ aciN ∧ scN ≠ acoN := by
    intro scN hs
    have hl := stay_status_col_lower hs
    have h1 := col_lc_get_lower haci
    have h2 := col_lc_get_lower haco
    constructor
    · intro he
      rw [he, h1] at hl
      rcases hl with hl | hl
      · exact absurd hl (by decide)
      · exact absurd hl (by decide)
    · intro he
      rw [he, h2] at hl
      rcases hl with hl | hl
      · exact absurd hl (by decide)
      · exact absurd hl (by decide)
  simp only [generate_stay_rows] at hok
  split at hok
  · exact Except.noConfusion hok
  · simp only [status_helper] at hok
    intro row hrow
    refine stayRowsLoop_all g tok _ enums fk_map ref_ids cols
      (fun r =>
        (∀ scN lbl, stay_status_col cols = some scN →
          alookup r scN = some (Value.vstr lbl) →
          strContains (upperStr lbl) "CANCEL" = true →
          alookup r aciN = some Value.vnull ∧ alookup r acoN = some Value.vnull) ∧
        (∀ x y, alookup r aciN = some (Value.vdate x) →
          alookup r acoN = some (Value.vdate y) → x ≤ y))
      ?_ n_rows 1 _ [] rows (fun r hr => absurd hr (List.not_mem_nil r)) hok row hrow
    intro i st rowx st2x hx
    exact stayRow_spec g tok _ enums fk_map ref_ids cols i st rowx st2x aciN acoN
      haci haco hne hsc hx

/-- Columns of the witness stay table: a status column backed by a
single-label enum, and the two actual timestamps. -/
def c6cols : List ColumnInfo :=
  [⟨"stay", "stay_status", "USER-DEFINED", "stay_status_enum", false, none, none, none⟩,
   ⟨"stay", "actual_checkin_at", "timestamp without time zone", "timestamp", true, none,
    none, none⟩,
   ⟨"stay", "actual_checkout_at", "timestamp without time zone", "timestamp", true, none,
    none, none⟩]

/-- Enum catalog of the witness stay table. -/
def c6enums : List (String × List String) := [("stay_status_enum", ["CANCELLED"])]

theorem stay_cancel_null_and_checkout_order_witness :
    ∃ rows,
      generate_stay_rows (fun _ => 0) (fun j => toString j) id "stay" c6cols [] [] 1 c6enums
        [] [] 0 = .ok rows ∧
      ∀ row ∈ rows,
        (∀ scN lbl, stay_status_col c6cols = some scN →
          alookup row scN = some (Value.vstr lbl) →
          strContains (upperStr lbl) "CANCEL" = true →
          alookup row "actual_checkin_at" = some Value.vnull ∧
          alookup row "actual_checkout_at" = some Value.vnull) ∧
        (∀ x y, alookup row "actual_checkin_at" = some (Value.vdate x) →
          alookup row "actual_checkout_at" = some (Value.vdate y) → x ≤ y) :=
  ⟨_, rfl,
    stay_cancel_null_and_checkout_order (fun _ => 0) (fun j => toString j) id "stay" c6cols
      [] [] 1 c6enums [] [] 0 _ "actual_checkin_at" "actual_checkout_at" rfl rfl rfl⟩
/-! ## C4 (amended): the generic assembler's non-null contract -/

/-- The column types for which `generate_value` is guaranteed to synthesize a
non-null value for a non-nullable column: a non-empty enum, a recognised
timestamp name, or a recognised date/timestamp/integer/uuid/boolean/numeric/
text type.  Exactly mirrors the dispatch chain of `generate_value`
(source lines 428-539); for anything else `generate_value` returns `None`. -/
def synthNonNull (c : ColumnInfo) (enums : List (String × List String)) : Bool :=
  let name := lowerStr c.column
  let dt := lowerStr c.data_type
  let udt := lowerStr c.udt_name
  match lookupEnums enums udt with
  | some labels => !labels.isEmpty
  | none =>
    (name = "created_at" || name = "updated_at" || name = "loaded_at" || name = "ingested_at") ||
    dt = "date" ||
    (dt = "timestamp without time zone" || dt = "timestamp with time zone"
      || udt = "timestamp" || udt = "timestamptz") ||
    (dt = "integer" || dt = "bigint" || dt = "smallint"
      || udt = "int2" || udt = "int4" || udt = "int8") ||
    (dt = "uuid" || udt = "uuid") ||
    dt = "boolean" ||
    (dt = "numeric" || dt = "decimal" || udt = "numeric") ||
    (dt = "character varying" || dt = "character" || dt = "text")

theorem generate_value_ne_vnull (c : ColumnInfo) (i : Nat)
    (enums : List (String × List String)) (g : Nat → Nat) (k : Nat)
    (hnn : c.is_nullable = false) (hs : synthNonNull c enums = true) :
    (generate_value c i enums g k).1 ≠ Value.vnull := by
  simp only [synthNonNull] at hs
  simp only [generate_value]
  cases hlk : lookupEnums enums (lowerStr c.udt_name) with
  | some labels =>
    simp only [hlk] at hs
    simp only [hlk, hnn, Bool.false_and, Bool.false_eq_true, if_false]
    have hemp : labels.isEmpty = false := by
      cases hx : labels.isEmpty
      · rfl
      · rw [hx] at hs; exact absurd hs (by decide)
    simp only [hemp, Bool.false_eq_true, if_false]
    intro hcon
    exact Value.noConfusion hcon
  | none =>
    simp only [hlk] at hs
    simp only [hlk]
    intro hcon
    split at hcon
    · exact Value.noConfusion hcon
    · split at hcon
      · exact Value.noConfusion hcon
      · split at hcon
        · exact Value.noConfusion hcon
        · split at hcon
          · split at hcon
            · exact Value.noConfusion hcon
            · split at hcon
              · exact Value.noConfusion hcon
              · split at hcon
                · exact Value.noConfusion hcon
                · exact Value.noConfusion hcon
          · split at hcon
            · exact Value.noConfusion hcon
            · split at hcon
              · exact Value.noConfusion hcon
              · split at hcon
                · exact Value.noConfusion hcon
                · split at hcon
                  · exact Value.noConfusion hcon
                  · simp_all

theorem uniqueRetry_ne_vnull (c : ColumnInfo) (i : Nat)
    (enums : List (String × List String)) (g : Nat → Nat) (seen : List Value)
    (hnn : c.is_nullable = false) (hs : synthNonNull c enums = true) :
    ∀ (b tries : Nat) (v : Value) (k : Nat), v ≠ Value.vnull →
      (uniqueRetry c i enums g seen b tries v k).1 ≠ Value.vnull := by
  intro b
  induction b with
  | zero => intro tries v k hv; exact hv
  | succ n ih =>
    intro tries v k hv
    unfold uniqueRetry
    by_cases hmem : v ∈ seen
    · rw [if_pos hmem]
      exact ih (tries + 1) _ _ (generate_value_ne_vnull c (i + (tries + 1)) enums g k hnn hs)
    · rw [if_neg hmem]
      exact hv

theorem enforce_unique_ne_vnull (c : ColumnInfo) (i : Nat)
    (enums : List (String × List String)) (g : Nat → Nat) (tok : Nat → String)
    (seen : List Value) (v : Value) (k j : Nat) (v2 : Value) (k2 j2 : Nat)
    (hnn : c.is_nullable = false) (hs : synthNonNull c enums = true)
    (hv : v ≠ Value.vnull)
    (h : enforce_unique c i enums g tok seen v k j = .ok (v2, k2, j2)) :
    v2 ≠ Value.vnull := by
  have hr := uniqueRetry_ne_vnull c i enums g seen hnn hs 50 0 v k hv
  simp only [enforce_unique] at h
  split at h
  · split at h
    · exact Except.noConfusion h
    · injection h with h1
      injection h1 with hv2 hrest
      rw [← hv2]
      intro hcon
      exact Value.noConfusion hcon
    · injection h with h1
      injection h1 with hv2 hrest
      rw [← hv2]
      intro hcon
      exact Value.noConfusion hcon
  · injection h with h1
    injection h1 with hv2 hrest
    rw [← hv2]
    exact hr

theorem null_fallback_skip (c : ColumnInfo) (tok : Nat → String) (v : Value)
    (reg : List ((String × String) × List String)) (j : Nat)
    (hv : v ≠ Value.vnull) :
    null_fallback c tok v reg j = (v, reg, j) := by
  unfold null_fallback
  have hb : (v == Value.vnull) = false := by
    cases hx : v == Value.vnull
    · rfl
    · exact absurd (eq_of_beq hx) hv
  rw [hb]
  rfl

theorem alookup_aset_or {α : Type} (m : List (String × α)) (key key2 : String) (v w : α)
    (h : alookup (aset m key v) key2 = some w) :
    (key2 = key ∧ w = v) ∨ alookup m key2 = some w := by
  by_cases he : key2 = key
  · subst he
    rw [alookup_aset_self] at h
    exact Or.inl ⟨rfl, (Option.some.inj h).symm⟩
  · rw [alookup_aset_other _ _ _ _ he] at h
    exact Or.inr h

theorem getD_mem {α : Type} (l : List α) (n : Nat) (d : α) (h : n < l.length) :
    l.getD n d ∈ l := by
  induction l generalizing n with
  | nil => simp at h
  | cons a t ih =>
    cases n with
    | zero => simp [List.getD]
    | succ m =>
      have hm : m < t.length := by simpa using h
      exact List.mem_cons_of_mem a (ih m hm)

theorem getLastD_mem {α : Type} (l : List α) : ∀ d : α, l ≠ [] → l.getLastD d ∈ l := by
  induction l with
  | nil => intro d h; exact absurd rfl h
  | cons a t ih =>
    intro d h
    rw [List.getLastD_cons d a t]
    cases t with
    | nil => simp [List.getLastD]
    | cons b u => exact List.mem_cons_of_mem a (ih a (by simp))

theorem alookup_map_eq {β : Type} (l : List ColumnInfo) (f : ColumnInfo → β) (name : String)
    (pool : β)
    (h : alookup (l.map (fun c => (c.column, f c))) name = some pool) :
    ∃ c ∈ l, pool = f c := by
  induction l with
  | nil => exact Option.noConfusion h
  | cons c rest ih =>
    simp only [List.map_cons, alookup] at h
    by_cases he : c.column = name
    · rw [if_pos he] at h
      exact ⟨c, List.mem_cons_self c rest, (Option.some.inj h).symm⟩
    · rw [if_neg he] at h
      obtain ⟨c2, hc2, hp⟩ := ih h
      exact ⟨c2, List.mem_cons_of_mem c hc2, hp⟩
theorem fkFromCandidates_spec (g : Nat → Nat) (ref_ids : List (String × List Value))
    (parent : String) (c : ColumnInfo) (row : List (String × Value)) (st : GenState)
    (v0 : Value) (k0 : Nat) (row2 : List (String × Value)) (st2 : GenState)
    (href : ∀ t l, alookup ref_ids t = some l → Value.vnull ∉ l)
    (h : fkFromCandidates g ref_ids parent c row st v0 k0 = .ok (row2, st2)) :
    (∀ key, (alookup row key).isSome → (alookup row2 key).isSome) ∧
    (alookup row2 c.column).isSome ∧
    (∀ key w, alookup row2 key = some w →
      alookup row key = some w ∨
      (c.column = key ∧ (c.is_nullable = false → w ≠ Value.vnull))) := by
  simp only [fkFromCandidates] at h
  split at h
  · rename_i hne
    injection h with h1
    injection h1 with hrw hst
    subst hrw
    refine ⟨fun key hk => alookup_aset_isSome _ _ _ _ hk, by rw [alookup_aset_self]; rfl, ?_⟩
    intro key w hw
    rcases alookup_aset_or row c.column key _ w hw with ⟨hkey, hwv⟩ | hold
    · right
      refine ⟨hkey.symm, fun hnn => ?_⟩
      subst hwv
      intro hcon
      have hlist : (alookup ref_ids parent).getD [] ≠ [] := by
        intro hemp
        rw [hemp] at hne
        exact absurd hne (by decide)
      have hpos : 0 < ((alookup ref_ids parent).getD []).length :=
        List.length_pos.mpr hlist
      have hm := getD_mem ((alookup ref_ids parent).getD [])
        (g k0 % ((alookup ref_ids parent).getD []).length) Value.vnull
        (Nat.mod_lt _ hpos)
      rw [hcon] at hm
      cases halo : alookup ref_ids parent with
      | none => rw [halo] at hm; exact absurd hm (by simp)
      | some l =>
        rw [halo] at hm
        exact href parent l halo hm
    · exact Or.inl hold
  · injection h with h1
    injection h1 with hrw hst
    subst hrw
    refine ⟨fun key hk => alookup_aset_isSome _ _ _ _ hk, by rw [alookup_aset_self]; rfl, ?_⟩
    intro key w hw
    rcases alookup_aset_or row c.column key _ w hw with ⟨hkey, hwv⟩ | hold
    · right
      refine ⟨hkey.symm, fun hnn => ?_⟩
      subst hwv
      intro hcon
      rw [hnn] at hcon
      simp at hcon
    · exact Or.inl hold

theorem genColRest_spec (g : Nat → Nat) (tok : Nat → String) (table_lc : String)
    (enums : List (String × List String))
    (fk_map : List ((String × String) × (String × String)))
    (ref_ids : List (String × List Value))
    (ufp : List (String × List Value))
    (i : Nat) (c : ColumnInfo)
    (row : List (String × Value)) (st : GenState) (v0 : Value) (k0 : Nat)
    (row2 : List (String × Value)) (st2 : GenState)
    (hsyn : c.is_nullable = false → synthNonNull c enums = true)
    (hufp : ∀ name pool, alookup ufp name = some pool → Value.vnull ∉ pool)
    (href : ∀ t l, alookup ref_ids t = some l → Value.vnull ∉ l)
    (h : genColRest g tok table_lc enums fk_map ref_ids ufp i c row st v0 k0 =
      .ok (row2, st2)) :
    (∀ key, (alookup row key).isSome → (alookup row2 key).isSome) ∧
    (alookup row2 c.column).isSome ∧
    (∀ key w, alookup row2 key = some w →
      alookup row key = some w ∨
      (c.column = key ∧ (c.is_nullable = false → w ≠ Value.vnull))) := by
  simp only [genColRest] at h
  split at h
  · rename_i pr hpr
    split at h
    · rename_i pool hpool
      split at h
      · rename_i hne
        injection h with h1
        injection h1 with hrw hst
        subst hrw
        refine ⟨fun key hk => alookup_aset_isSome _ _ _ _ hk,
          by rw [alookup_aset_self]; rfl, ?_⟩
        intro key w hw
        rcases alookup_aset_or row c.column key _ w hw with ⟨hkey, hwv⟩ | hold
        · right
          refine ⟨hkey.symm, fun hnn => ?_⟩
          subst hwv
          intro hcon
          have hpne : pool ≠ [] := by
            intro hemp
            rw [hemp] at hne
            exact absurd hne (by decide)
          by_cases hidx : i - 1 < pool.length
          · rw [if_pos hidx] at hcon
            have hm := getD_mem pool (i - 1) Value.vnull hidx
            rw [hcon] at hm
            exact hufp c.column pool hpool hm
          · rw [if_neg hidx, hnn] at hcon
            simp only [Bool.false_eq_true, if_false] at hcon
            have hm := getLastD_mem pool Value.vnull hpne
            rw [hcon] at hm
            exact hufp c.column pool hpool hm
        · exact Or.inl hold
      · exact fkFromCandidates_spec g ref_ids pr.1 c row st v0 k0 row2 st2 href h
    · exact fkFromCandidates_spec g ref_ids pr.1 c row st v0 k0 row2 st2 href h
  · split at h
    · exact Except.noConfusion h
    · rename_i v2 k2 j2 seenU2 heq2
      injection h with h1
      injection h1 with hrw hst
      subst hrw
      refine ⟨fun key hk => alookup_aset_isSome _ _ _ _ hk,
        by rw [alookup_aset_self]; rfl, ?_⟩
      intro key w hw
      rcases alookup_aset_or row c.column key _ w hw with ⟨hkey, hwv⟩ | hold
      · right
        refine ⟨hkey.symm, fun hnn => ?_⟩
        subst hwv
        have hsynT := hsyn hnn
        have hv1 : (generate_value c i enums g k0).1 ≠ Value.vnull :=
          generate_value_ne_vnull c i enums g k0 hnn hsynT
        have hv2 : v2 ≠ Value.vnull := by
          split at heq2
          · rename_i s hseen
            split at heq2
            · split at heq2
              · exact Except.noConfusion heq2
              · rename_i va ka ja heqE
                injection heq2 with hq
                injection hq with hva hrest
                rw [← hva]
                exact enforce_unique_ne_vnull c i enums g tok s _ _ _ _ _ _ hnn hsynT hv1 heqE
            · injection heq2 with hq
              injection hq with hva hrest
              rw [← hva]
              exact hv1
          · injection heq2 with hq
            injection hq with hva hrest
            rw [← hva]
            exact hv1
        rw [null_fallback_skip c tok v2 st.reg j2 hv2]
        exact hv2
      · exact Or.inl hold

theorem processColGeneric_spec (g : Nat → Nat) (tok : Nat → String) (table_lc : String)
    (enums : List (String × List String))
    (fk_map : List ((String × String) × (String × String)))
    (ref_ids : List (String × List Value))
    (ufp : List (String × List Value)) (pk_col : Option String)
    (i : Nat) (c : ColumnInfo)
    (row : List (String × Value)) (st : GenState)
    (row2 : List (String × Value)) (st2 : GenState)
    (hsyn : c.is_nullable = false → synthNonNull c enums = true)
    (hufp : ∀ name pool, alookup ufp name = some pool → Value.vnull ∉ pool)
    (href : ∀ t l, alookup ref_ids t = some l → Value.vnull ∉ l)
    (h : processColGeneric g tok table_lc enums fk_map ref_ids ufp pk_col i c row st =
      .ok (row2, st2)) :
    (∀ key, (alookup row key).isSome → (alookup row2 key).isSome) ∧
    (alookup row2 c.column).isSome ∧
    (∀ key w, alookup row2 key = some w →
      alookup row key = some w ∨
      (c.column = key ∧ (c.is_nullable = false → w ≠ Value.vnull))) := by
  by_cases hpres : (alookup row c.column).isSome = true
  · unfold processColGeneric at h
    rw [if_pos hpres] at h
    injection h with h1
    injection h1 with hrw hst
    subst hrw
    exact ⟨fun key hk => hk, hpres, fun key w hw => Or.inl hw⟩
  · simp only [processColGeneric] at h
    rw [if_neg hpres] at h
    by_cases hpk : pk_col = some c.column
    · rw [if_pos hpk] at h
      split at h
      · rename_i s hseen
        split at h
        · rename_i hvcond
          split at h
          · exact Except.noConfusion h
          · rename_i v1 k1 j1 heqE
            injection h with h1
            injection h1 with hrw hst
            subst hrw
            refine ⟨fun key hk => alookup_aset_isSome _ _ _ _ hk,
              by rw [alookup_aset_self]; rfl, ?_⟩
            intro key w hw
            rcases alookup_aset_or row c.column key _ w hw with ⟨hkey, hwv⟩ | hold
            · right
              refine ⟨hkey.symm, fun hnn => ?_⟩
              subst hwv
              exact enforce_unique_ne_vnull c i enums g tok s _ _ _ _ _ _ hnn (hsyn hnn)
                (generate_value_ne_vnull c i enums g st.k hnn (hsyn hnn)) heqE
            · exact Or.inl hold
        · exact genColRest_spec g tok table_lc enums fk_map ref_ids ufp i c row st _ _
            row2 st2 hsyn hufp href h
      · exact genColRest_spec g tok table_lc enums fk_map ref_ids ufp i c row st _ _
          row2 st2 hsyn hufp href h
    · rw [if_neg hpk] at h
      split at h
      · rename_i s hseen
        split at h
        · rename_i hvcond
          split at h
          · exact Except.noConfusion h
          · rename_i v1 k1 j1 heqE
            injection h with h1
            injection h1 with hrw hst
            subst hrw
            refine ⟨fun key hk => alookup_aset_isSome _ _ _ _ hk,
              by rw [alookup_aset_self]; rfl, ?_⟩
            intro key w hw
            rcases alookup_aset_or row c.column key _ w hw with ⟨hkey, hwv⟩ | hold
            · right
              refine ⟨hkey.symm, fun hnn => ?_⟩
              subst hwv
              have hv0 : (st.v, st.k).1 ≠ Value.vnull := by
                intro hnull
                rw [hnull] at hvcond
                exact absurd hvcond (by decide)
              exact enforce_unique_ne_vnull c i enums g tok s _ _ _ _ _ _ hnn (hsyn hnn)
                hv0 heqE
            · exact Or.inl hold
        · exact genColRest_spec g tok table_lc enums fk_map ref_ids ufp i c row st _ _
            row2 st2 hsyn hufp href h
      · exact genColRest_spec g tok table_lc enums fk_map ref_ids ufp i c row st _ _
          row2 st2 hsyn hufp href h

theorem processColsGeneric_spec (g : Nat → Nat) (tok : Nat → String) (table_lc : String)
    (enums : List (String × List String))
    (fk_map : List ((String × String) × (String × String)))
    (ref_ids : List (String × List Value))
    (ufp : List (String × List Value)) (pk_col : Option String) (i : Nat)
    (hufp : ∀ name pool, alookup ufp name = some pool → Value.vnull ∉ pool)
    (href : ∀ t l, alookup ref_ids t = some l → Value.vnull ∉ l) :
    ∀ (cs : List ColumnInfo) (row : List (String × Value)) (st : GenState)
      (row2 : List (String × Value)) (st2 : GenState),
      (∀ c ∈ cs, c.is_nullable = false → synthNonNull c enums = true) →
      processColsGeneric g tok table_lc enums fk_map ref_ids ufp pk_col i cs row st =
        .ok (row2, st2) →
      (∀ key, (alookup row key).isSome → (alookup row2 key).isSome) ∧
      (∀ c ∈ cs, (alookup row2 c.column).isSome) ∧
      (∀ key w, alookup row2 key = some w →
        alookup row key = some w ∨
        ∃ c, c ∈ cs ∧ c.column = key ∧ (c.is_nullable = false → w ≠ Value.vnull)) := by
  intro cs
  induction cs with
  | nil =>
    intro row st row2 st2 hsyn h
    unfold processColsGeneric at h
    injection h with h1
    injection h1 with hrw hst
    subst hrw
    exact ⟨fun key hk => hk, fun c hc => absurd hc (List.not_mem_nil c),
      fun key w hw => Or.inl hw⟩
  | cons c rest ih =>
    intro row st row2 st2 hsyn h
    unfold processColsGeneric at h
    cases hp : processColGeneric g tok table_lc enums fk_map ref_ids ufp pk_col i c row st with
    | error e => rw [hp] at h; exact Except.noConfusion h
    | ok p =>
      obtain ⟨rowm, stm⟩ := p
      rw [hp] at h
      have H1 := processColGeneric_spec g tok table_lc enums fk_map ref_ids ufp pk_col i c
        row st rowm stm (hsyn c (List.mem_cons_self c rest)) hufp href hp
      have H2 := ih rowm stm row2 st2
        (fun c2 hc2 => hsyn c2 (List.mem_cons_of_mem c hc2)) h
      refine ⟨fun key hk => H2.1 key (H1.1 key hk), ?_, ?_⟩
      · intro c2 hc2
        rcases List.mem_cons.mp hc2 with he | hm
        · rw [he]
          exact H2.1 c.column H1.2.1
        · exact H2.2.1 c2 hm
      · intro key w hw
        rcases H2.2.2 key w hw with hm | ⟨c2, hc2, hcol, hnn⟩
        · rcases H1.2.2 key w hm with hrow | ⟨hcol, hnn⟩
          · exact Or.inl hrow
          · exact Or.inr ⟨c, List.mem_cons_self c rest, hcol, hnn⟩
        · exact Or.inr ⟨c2, List.mem_cons_of_mem c hc2, hcol, hnn⟩

theorem genPre_ne_vnull (g : Nat → Nat) (startEnd : Option (String × String)) (st : GenState) :
    ∀ key w, alookup (genPre g startEnd st).1 key = some w → w ≠ Value.vnull := by
  intro key w hw
  rcases startEnd with _ | sc
  · exact Option.noConfusion hw
  · simp only [genPre] at hw
    rcases alookup_aset_or _ _ _ _ _ hw with ⟨hk, hv⟩ | h2
    · subst hv
      intro hcon
      exact Value.noConfusion hcon
    · rcases alookup_aset_or _ _ _ _ _ h2 with ⟨hk2, hv2⟩ | h3
      · subst hv2
        intro hcon
        exact Value.noConfusion hcon
      · exact Option.noConfusion h3

theorem genRowsLoop_spec (g : Nat → Nat) (tok : Nat → String) (table_lc : String)
    (enums : List (String × List String))
    (fk_map : List ((String × String) × (String × String)))
    (ref_ids : List (String × List Value))
    (ufp : List (String × List Value)) (pk_col : Option String)
    (startEnd : Option (String × String)) (cols : List ColumnInfo)
    (hufp : ∀ name pool, alookup ufp name = some pool → Value.vnull ∉ pool)
    (href : ∀ t l, alookup ref_ids t = some l → Value.vnull ∉ l)
    (hsyn : ∀ c ∈ cols, c.is_nullable = false → synthNonNull c enums = true)
    (hnodup : (cols.map (fun c => c.column)).Nodup) :
    ∀ (n i : Nat) (st : GenState) (acc rows : List (List (String × Value))) (stF : GenState),
      (∀ r ∈ acc, ∀ c ∈ cols, c.is_nullable = false →
        ∃ w, alookup r c.column = some w ∧ w ≠ Value.vnull) →
      genRowsLoop g tok table_lc enums fk_map ref_ids ufp pk_col startEnd cols n i st acc
        = .ok (rows, stF) →
      ∀ r ∈ rows, ∀ c ∈ cols, c.is_nullable = false →
        ∃ w, alookup r c.column = some w ∧ w ≠ Value.vnull := by
  intro n
  induction n with
  | zero =>
    intro i st acc rows stF hacc h
    unfold genRowsLoop at h
    injection h with h1
    injection h1 with hrw hst
    intro r hr
    rw [← hrw] at hr
    exact hacc r hr
  | succ m ih =>
    intro i st acc rows stF hacc h
    simp only [genRowsLoop] at h
    cases hpc : processColsGeneric g tok table_lc enums fk_map ref_ids ufp pk_col i cols
        (genPre g startEnd st).1 (genPre g startEnd st).2 with
    | error e => rw [hpc] at h; exact Except.noConfusion h
    | ok p =>
      obtain ⟨row1, st1⟩ := p
      rw [hpc] at h
      refine ih (i + 1) st1 (acc ++ [row1]) rows stF ?_ h
      intro r hr
      rcases List.mem_append.mp hr with h1 | h1
      · exact hacc r h1
      · have he : r = row1 := List.mem_singleton.mp h1
        rw [he]
        intro c hc hnn
        have H := processColsGeneric_spec g tok table_lc enums fk_map ref_ids ufp pk_col i
          hufp href cols _ _ row1 st1 hsyn hpc
        have hpres := H.2.1 c hc
        cases hval : alookup row1 c.column with
        | none =>
          rw [hval] at hpres
          exact absurd hpres (by simp)
        | some w =>
          refine ⟨w, rfl, ?_⟩
          rcases H.2.2 c.column w hval with hpre | ⟨c2, hc2, hcol, hnn2⟩
          · exact genPre_ne_vnull g startEnd st c.column w hpre
          · have hcc : c2 = c := List.inj_on_of_nodup_map hnodup hc2 hc hcol
            rw [hcc] at hnn2
            exact hnn2 hnn

/-- C4 (amended): in the generic table assembler, under the schema-sanity
hypotheses that every non-nullable column has a type the synthesizer
recognises (`synthNonNull`), that column names are duplicate-free, that the
shuffle only rearranges its input, and that no reference pool contains a
null, every emitted row carries a non-null value in every non-nullable
column.  The hypotheses mark exactly the spec's over-claims: the stay
assembler violates the contract outright (see the counterexample), the text
sentinel can itself return `None` when its budget is exhausted (C10), and a
uniqueness-enforced column of unrecognised type can take a synthesized null
directly, bypassing the sentinel. -/
theorem generic_nonnullable_nonnull (g : Nat → Nat) (tok : Nat → String)
    (shuffle : List Value → List Value) (table : String) (cols : List ColumnInfo)
    (pk : Option PrimaryKey)
    (fk_map : List ((String × String) × (String × String)))
    (ref_ids : List (String × List Value)) (n_rows : Nat)
    (enums : List (String × List String)) (unique_cols : List (String × List String))
    (reg0 : List ((String × String) × List String)) (j0 : Nat)
    (rows : List (List (String × Value))) (refs2 : List (String × List Value))
    (hsynth : ∀ c ∈ cols, c.is_nullable = false → synthNonNull c enums = true)
    (hshuf : ∀ l : List Value, shuffle l ⊆ l)
    (href : ∀ t l, alookup ref_ids t = some l → Value.vnull ∉ l)
    (hnodup : (cols.map (fun c => c.column)).Nodup)
    (hok : generate_table_rows g tok shuffle table cols pk fk_map ref_ids n_rows enums
      unique_cols reg0 j0 = .ok (rows, refs2)) :
    ∀ row ∈ rows, ∀ c ∈ cols, c.is_nullable = false →
      ∃ w, alookup row c.column = some w ∧ w ≠ Value.vnull := by
  simp only [generate_table_rows] at hok
  split at hok
  · exact Except.noConfusion hok
  · rename_i rows1 stF heq
    injection hok with h1
    injection h1 with hrw hrefs
    refine genRowsLoop_spec g tok (lowerStr table) enums fk_map ref_ids _ _ _ cols
      ?_ href hsynth hnodup n_rows 1 _ [] rows stF
      (fun r hr => absurd hr (List.not_mem_nil r)) (by rw [← hrw]; exact heq)
    intro name pool hp
    obtain ⟨c, hc, hpool⟩ := alookup_map_eq _ _ name pool hp
    subst hpool
    intro hmem
    have h2 := List.take_subset n_rows _ hmem
    have h3 := hshuf _ h2
    cases halo : alookup ref_ids
        ((plookup fk_map (lowerStr table, c.column)).getD ("", "")).1 with
    | none =>
      rw [halo] at h3
      simp at h3
    | some l =>
      rw [halo] at h3
      exact href _ l halo h3

/-- Columns of the C4 witness table: a serial key, a mandatory text name and
an optional note. -/
def c4gcols : List ColumnInfo :=
  [⟨"guest", "guest_id", "integer", "int4", false, none, none, none⟩,
   ⟨"guest", "full_name", "text", "text", false, none, none, none⟩,
   ⟨"guest", "note", "text", "text", true, none, none, none⟩]

theorem generic_nonnullable_nonnull_witness :
    ∃ rows refs2,
      generate_table_rows (fun _ => 0) (fun j => toString j) id "guest" c4gcols none [] []
        1 [] [] [] 0 = .ok (rows, refs2) ∧
      ∀ row ∈ rows, ∀ c ∈ c4gcols, c.is_nullable = false →
        ∃ w, alookup row c.column = some w ∧ w ≠ Value.vnull := by
  refine ⟨_, _, rfl, ?_⟩
  exact generic_nonnullable_nonnull (fun _ => 0) (fun j => toString j) id "guest" c4gcols
    none [] [] 1 [] [] [] 0 _ _ (by decide) (fun l x hx => hx)
    (fun t l hl => Option.noConfusion hl) (by decide) rfl

end HotelGen
